import Mathlib

/-!
Shallow embedding of the json-remap-engine rule-execution core.

The definitions below translate `src/transformer.ts` and `src/path-utils.ts`
into Lean. JavaScript strings are Lean `String`s, but every string operation
the source uses (`trim`, `split`, `startsWith`, `replace`, `Number(...)`) is
reimplemented here on the character list so that all definitions reduce by
kernel computation. JSON documents are the inductive `Json`; JavaScript's
`undefined` is the constructor `Json.undef`, since the source tests
`=== undefined` in several places. JavaScript objects are association lists
of own properties in insertion order; `hasOwn` is list membership of the key,
which matches the source's exclusive use of `Object.prototype.hasOwnProperty`
(prototype members are invisible).

The external query collaborator (`jsonpath-plus`) is out of scope for the
engine; it is modelled as a `QueryOracle` — a pair of functions returning
pointer lists / value lists or an error message — exactly the interface the
source consumes. JavaScript exceptions become `Except String`; in-place
mutation becomes explicit document threading (see `applyOperation` for the
one place where an exception can leave a partially mutated tree behind).
-/

namespace JsonRemap

/-- JavaScript whitespace characters relevant to `String.prototype.trim`
(the source only ever trims ordinary expression strings). -/
def jsIsSpace (c : Char) : Bool :=
  c == ' ' || c == '\t' || c == '\n' || c == '\r'

/-- `s.trim()` of JavaScript, on the character list. -/
def trimString (s : String) : String :=
  String.mk (((s.data.dropWhile jsIsSpace).reverse.dropWhile jsIsSpace).reverse)

/-- `s.startsWith(pre)` of JavaScript. -/
def startsWithStr (s pre : String) : Bool :=
  pre.data.isPrefixOf s.data

/-- `s.slice(n)` of JavaScript for a nonnegative `n`. -/
def strDrop (s : String) (n : Nat) : String :=
  String.mk (s.data.drop n)

/-- `s.split(c)` of JavaScript for a single-character separator. -/
def splitOnCharList (sep : Char) : List Char → List (List Char)
  | [] => [[]]
  | c :: rest =>
    let groups := splitOnCharList sep rest
    if c == sep then [] :: groups
    else
      match groups with
      | g :: gs => (c :: g) :: gs
      | [] => [[c]]

/-- `s.split(sep)` of JavaScript for a one-character separator string. -/
def splitOnChar (sep : Char) (s : String) : List String :=
  (splitOnCharList sep s.data).map String.mk

/-- Replace every (left-to-right, non-overlapping) occurrence of the
two-character pattern `[a, b]` by the character `r` — the effect of a
global regex replace such as `.replace(/~1/g, "/")`. -/
def replacePair (a b r : Char) : List Char → List Char
  | x :: y :: rest =>
    if x == a && y == b then r :: replacePair a b r rest
    else x :: replacePair a b r (y :: rest)
  | other => other

/-- Replace every occurrence of the character `a` by the two-character
sequence `r` — the effect of `.replace(/~/g, "~0")` and the like. -/
def replaceCharBy (a : Char) (r : List Char) : List Char → List Char
  | [] => []
  | x :: rest => if x == a then r ++ replaceCharBy a r rest else x :: replaceCharBy a r rest

/-- Does `s` contain `pat` as a substring (used to model `message.includes(...)`
and the undefined-property regex test of `evaluatePointerMatches`)? -/
def containsSubList (pat : List Char) : List Char → Bool
  | [] => pat.isEmpty
  | c :: rest => pat.isPrefixOf (c :: rest) || containsSubList pat rest

/-- `s.includes(pat)` of JavaScript. -/
def includesStr (s pat : String) : Bool :=
  containsSubList pat.data s.data

/-- Parse a nonempty all-digit character list as a natural number. -/
def digitsToNat : List Char → Option Nat
  | [] => none
  | cs =>
    if cs.all Char.isDigit then
      some (cs.foldl (fun acc c => acc * 10 + (c.toNat - 48)) 0)
    else none

/-- The integer value of `Number(token)` when it is an integer, `none` when
`Number(token)` is `NaN` or fractional. Modelled for plain decimal tokens
with an optional leading minus sign — the token shapes that reach the
source's array-index parsing (JSON-Pointer tokens produced by the matcher
or written as pointer literals); exotic JavaScript numerals (hex, exponent,
leading `+`, interior whitespace) are out of the embedding's scope. -/
def parseIntToken (t : String) : Option Int :=
  match t.data with
  | '-' :: rest => (digitsToNat rest).map (fun n => -(n : Int))
  | cs => (digitsToNat cs).map (fun n => (n : Int))

/-- JSON-like values. `undef` is JavaScript's `undefined` (the source
compares against it); `obj` is an insertion-ordered own-property list. -/
inductive Json where
  | null
  | undef
  | bool (b : Bool)
  | num (n : Int)
  | str (s : String)
  | arr (elems : List Json)
  | obj (fields : List (String × Json))

mutual

/-- Structural equality of JSON values (used only to model JavaScript's
reference equality in `Array.prototype.indexOf`, where the compared
elements are known to be distinct). -/
def Json.beq : Json → Json → Bool
  | .null, .null => true
  | .undef, .undef => true
  | .bool a, .bool b => a == b
  | .num a, .num b => a == b
  | .str a, .str b => a == b
  | .arr xs, .arr ys => Json.beqList xs ys
  | .obj xs, .obj ys => Json.beqFields xs ys
  | _, _ => false

/-- Element-wise `Json.beq` on arrays. -/
def Json.beqList : List Json → List Json → Bool
  | [], [] => true
  | a :: as, b :: bs => Json.beq a b && Json.beqList as bs
  | _, _ => false

/-- Field-wise `Json.beq` on object property lists. -/
def Json.beqFields : List (String × Json) → List (String × Json) → Bool
  | [], [] => true
  | (k, v) :: as, (l, w) :: bs => k == l && Json.beq v w && Json.beqFields as bs
  | _, _ => false

end

/-- `Object.prototype.hasOwnProperty.call(target, key)` on an object's
own-property list. -/
def hasOwnField (fields : List (String × Json)) (key : String) : Bool :=
  fields.any (fun kv => kv.1 == key)

/-- Own-property read (`target[key]` on a plain object with only own data
properties). -/
def getField (fields : List (String × Json)) (key : String) : Option Json :=
  (fields.find? (fun kv => kv.1 == key)).map (·.2)

/-- `target[key] = value` when the key already exists (in-place update,
order preserved). -/
def setField (fields : List (String × Json)) (key : String) (value : Json) :
    List (String × Json) :=
  fields.map (fun kv => if kv.1 == key then (kv.1, value) else kv)

/-- `delete target[key]` (removes the own property, order of the rest
preserved). -/
def deleteField (fields : List (String × Json)) (key : String) :
    List (String × Json) :=
  fields.filter (fun kv => !(kv.1 == key))

/-- `target[key] = value` for a possibly absent key: update in place when
present, append otherwise (JavaScript insertion order for fresh string
keys). -/
def addField (fields : List (String × Json)) (key : String) (value : Json) :
    List (String × Json) :=
  if hasOwnField fields key then setField fields key value
  else fields ++ [(key, value)]

/-! ## Pointer strings (transformer.ts lines 59-177, path-utils.ts lines 3-4) -/

/-- path-utils `decodePointerToken`: `token.replace(/~1/g, "/").replace(/~0/g, "~")`. -/
def decodePointerToken (token : String) : String :=
  String.mk (replacePair '~' '0' '~' (replacePair '~' '1' '/' token.data))

/-- path-utils `encodePointerToken`: `token.replace(/~/g, "~0").replace(/\//g, "~1")`. -/
def encodePointerToken (token : String) : String :=
  String.mk (replaceCharBy '/' ['~', '1'] (replaceCharBy '~' ['~', '0'] token.data))

/-- transformer `isUnsafePointerKey`. -/
def isUnsafePointerKey (key : String) : Bool :=
  key == "__proto__" || key == "prototype" || key == "constructor"

/-- transformer `assertSafePointerKey` (throws on a reserved
inheritance-chain key). -/
def assertSafePointerKey (key : String) : Except String Unit :=
  if isUnsafePointerKey key then
    .error s!"Unsafe pointer segment '{key}' is not allowed"
  else .ok ()

/-- transformer `normalizePointer`. In the source the `replace(/^\/+/g, "")`
runs only on a pointer that does not start with `/`, where it strips
nothing, but it is kept literally here. -/
def normalizePointer (pointer : String) : String :=
  if pointer == "" then ""
  else if !startsWithStr pointer "/" then
    "/" ++ String.mk (pointer.data.dropWhile (fun c => c == '/'))
  else pointer

/-- transformer `splitPointer` (throws on a nonempty pointer that does not
start with `/`). -/
def splitPointer (pointer : String) : Except String (List String) :=
  if pointer == "" then .ok []
  else if !startsWithStr pointer "/" then
    .error s!"Invalid JSON pointer: {pointer}"
  else .ok ((splitOnChar '/' (strDrop pointer 1)).map decodePointerToken)

/-- Total restriction of `splitPointer`, used where the source calls
`splitPointer` in a context that never sees an invalid pointer (every staged
path is produced by `normalizePointer` or `joinPointer`, so it is `""` or
starts with `/`; on other inputs the source would throw out of the whole
run). -/
def splitPointerTotal (pointer : String) : List String :=
  if pointer == "" then []
  else (splitOnChar '/' (strDrop pointer 1)).map decodePointerToken

/-- transformer `joinPointer`. -/
def joinPointer (tokens : List String) : String :=
  if tokens.isEmpty then ""
  else "/" ++ String.intercalate "/" (tokens.map encodePointerToken)

/-- transformer `ensurePointerSafety` (throws when any token of the pointer
is a reserved inheritance-chain key). The source iterates with `forEach`
and throws at the first unsafe token, which is the first-match search
written here. -/
def ensurePointerSafety (pointer : String) : Except String Unit :=
  if pointer == "" then .ok ()
  else
    match splitPointer pointer with
    | .error e => .error e
    | .ok tokens =>
      match tokens.find? (fun token => isUnsafePointerKey token) with
      | some token => .error s!"Unsafe pointer segment '{token}' is not allowed"
      | none => .ok ()

/-! ## Tree traversal and mutation primitives (transformer.ts lines 179-293).
The source resolves a parent node by reference and mutates it in place; the
embedding rebuilds the document along the traversed path. Every traversal
check and error message mirrors the source. -/

/-- The loop body of transformer `getValueAtPointer`, on decoded tokens. -/
def getValueTokens : Json → List String → Except String Json
  | current, [] => .ok current
  | current, token :: rest =>
    match current with
    | .arr elems =>
      if token == "-" then
        Except.error "Cannot resolve '-' within JSON pointer"
      else
        match parseIntToken token with
        | some i =>
          if h : 0 ≤ i ∧ i.toNat < elems.length then
            getValueTokens (elems.get ⟨i.toNat, h.2⟩) rest
          else Except.error s!"Array index {token} is out of bounds"
        | none => Except.error s!"Array index {token} is out of bounds"
    | .obj fields =>
      match getField fields token with
      | some v => getValueTokens v rest
      | none => Except.error s!"Property '{token}' does not exist"
    | .null =>
      Except.error s!"Cannot traverse pointer segment '{token}' on non-container value"
    | _ =>
      Except.error s!"Cannot traverse pointer segment '{token}' on non-container value"

/-- transformer `getValueAtPointer`. -/
def getValueAtPointer (document : Json) (pointer : String) : Except String Json :=
  match splitPointer pointer with
  | .error e => .error e
  | .ok tokens => getValueTokens document tokens

/-- transformer `getParentContext`: `none` is the `{parent: null, key: null}`
root result; otherwise the resolved parent node and the final token. -/
def getParentContext (document : Json) (pointer : String) :
    Except String (Option (Json × String)) :=
  match splitPointer pointer with
  | .error e => .error e
  | .ok tokens =>
    match tokens.getLast? with
    | none => .ok none
    | some key =>
      let parentTokens := tokens.dropLast
      match (if parentTokens.isEmpty then .ok document
             else getValueAtPointer document (joinPointer parentTokens)) with
      | .error e => .error e
      | .ok parent => .ok (some (parent, key))

/-- Rebuild the document with the node at `tokens` replaced by `newNode`.
Only called after the same traversal has already succeeded, so its errors
(kept identical to `getValueTokens`) are unreachable at call sites; it is
the functional counterpart of the source's in-place mutation of the parent
reference. -/
def setValueTokens : Json → List String → Json → Except String Json
  | _, [], newNode => .ok newNode
  | current, token :: rest, newNode =>
    match current with
    | .arr elems =>
      if token == "-" then
        .error "Cannot resolve '-' within JSON pointer"
      else
        match parseIntToken token with
        | some i =>
          if h : 0 ≤ i ∧ i.toNat < elems.length then
            match setValueTokens (elems.get ⟨i.toNat, h.2⟩) rest newNode with
            | .error e => .error e
            | .ok child => .ok (.arr (elems.set i.toNat child))
          else .error s!"Array index {token} is out of bounds"
        | none => .error s!"Array index {token} is out of bounds"
    | .obj fields =>
      match getField fields token with
      | some v =>
        match setValueTokens v rest newNode with
        | .error e => .error e
        | .ok child => .ok (.obj (setField fields token child))
      | none => .error s!"Property '{token}' does not exist"
    | _ =>
      .error s!"Cannot traverse pointer segment '{token}' on non-container value"

/-- Write `newParent` back at the position `getParentContext` resolved it
from: the root itself for an empty parent-token list, the traversed
location otherwise. -/
def writeParentBack (document : Json) (pointer : String) (newParent : Json) :
    Except String Json :=
  match splitPointer pointer with
  | .error e => .error e
  | .ok tokens =>
    let parentTokens := tokens.dropLast
    if parentTokens.isEmpty then .ok newParent
    else setValueTokens document parentTokens newParent

/-- transformer `removeAtPointer`: the mutation of the resolved parent. -/
def removeFromParent (parent : Json) (key : String) : Except String Json :=
  match parent with
  | .arr elems =>
    if key == "-" then
      .error "'-' is not allowed when removing array elements"
    else
      match parseIntToken key with
      | some i =>
        if 0 ≤ i ∧ i.toNat < elems.length then
          .ok (.arr (elems.eraseIdx i.toNat))
        else .error s!"Array index {key} is out of bounds"
      | none => .error s!"Array index {key} is out of bounds"
  | .obj fields =>
    if hasOwnField fields key then .ok (.obj (deleteField fields key))
    else .error s!"Property '{key}' does not exist"
  | _ => .error "Cannot remove from non-container value"

/-- transformer `removeAtPointer`. A root pointer — and, as in the source's
`parent === null` test, a parent that resolves to JSON `null` — raises the
root-removal error. -/
def removeAtPointer (document : Json) (pointer : String) : Except String Json :=
  match getParentContext document pointer with
  | .error e => .error e
  | .ok none => .error "Cannot remove the root document"
  | .ok (some (parent, key)) =>
    if parent matches .null then .error "Cannot remove the root document"
    else
      match removeFromParent parent key with
      | .error e => .error e
      | .ok newParent => writeParentBack document pointer newParent

/-- transformer `replaceAtPointer`: the mutation of the resolved parent. -/
def replaceInParent (parent : Json) (key : String) (value : Json) :
    Except String Json :=
  match parent with
  | .arr elems =>
    if key == "-" then
      .error "'-' is not allowed when replacing array elements"
    else
      match parseIntToken key with
      | some i =>
        if 0 ≤ i ∧ i.toNat < elems.length then
          .ok (.arr (elems.set i.toNat value))
        else .error s!"Array index {key} is out of bounds"
      | none => .error s!"Array index {key} is out of bounds"
  | .obj fields =>
    match assertSafePointerKey key with
    | .error e => .error e
    | .ok _ =>
      if hasOwnField fields key then .ok (.obj (setField fields key value))
      else .error s!"Property '{key}' does not exist"
  | _ => .error "Cannot replace within non-container value"

/-- transformer `replaceAtPointer`. For the root pointer — and, as in the
source's `parent === null` test, for a parent that resolves to JSON
`null` — the whole document becomes `value`. -/
def replaceAtPointer (document : Json) (pointer : String) (value : Json) :
    Except String Json :=
  match getParentContext document pointer with
  | .error e => .error e
  | .ok none => .ok value
  | .ok (some (parent, key)) =>
    if parent matches .null then .ok value
    else
      match replaceInParent parent key value with
      | .error e => .error e
      | .ok newParent => writeParentBack document pointer newParent

/-- transformer `addAtPointer`: the mutation of the resolved parent. -/
def addInParent (parent : Json) (key : String) (value : Json) :
    Except String Json :=
  match parent with
  | .arr elems =>
    if key == "-" then .ok (.arr (elems ++ [value]))
    else
      match parseIntToken key with
      | some i =>
        if 0 ≤ i ∧ i.toNat ≤ elems.length then
          .ok (.arr (elems.take i.toNat ++ value :: elems.drop i.toNat))
        else .error s!"Array index {key} is out of bounds"
      | none => .error s!"Array index {key} is out of bounds"
  | .obj fields =>
    match assertSafePointerKey key with
    | .error e => .error e
    | .ok _ => .ok (.obj (addField fields key value))
  | _ => .error "Cannot add within non-container value"

/-- transformer `addAtPointer`. For the root pointer — and for a JSON-`null`
parent — the whole document becomes `value`. -/
def addAtPointer (document : Json) (pointer : String) (value : Json) :
    Except String Json :=
  match getParentContext document pointer with
  | .error e => .error e
  | .ok none => .ok value
  | .ok (some (parent, key)) =>
    if parent matches .null then .ok value
    else
      match addInParent parent key value with
      | .error e => .error e
      | .ok newParent => writeParentBack document pointer newParent

/-! ## Operation records and the same-parent removal reordering
(transformer.ts lines 6-56 and 295-334). -/

/-- transformer `Op`. -/
inductive Op where
  | remove
  | replace
  | move
  | rename
  deriving DecidableEq

/-- The string the source interpolates for `rule.op`. -/
def Op.asString : Op → String
  | .remove => "remove"
  | .replace => "replace"
  | .move => "move"
  | .rename => "rename"

/-- transformer `JsonPatchOperation`. -/
inductive JsonPatchOperation where
  | remove (path : String)
  | replace (path : String) (value : Json)
  | move (path : String) (fromPtr : String)

/-- The `op` discriminant of a patch summary. -/
def JsonPatchOperation.opTag : JsonPatchOperation → Op
  | .remove _ => .remove
  | .replace _ _ => .replace
  | .move _ _ => .move

/-- The `path` field of a patch summary. -/
def JsonPatchOperation.path : JsonPatchOperation → String
  | .remove p => p
  | .replace p _ => p
  | .move p _ => p

/-- Structural equality of patch summaries. -/
def JsonPatchOperation.beq : JsonPatchOperation → JsonPatchOperation → Bool
  | .remove p, .remove q => p == q
  | .replace p v, .replace q w => p == q && Json.beq v w
  | .move p f, .move q g => p == q && f == g
  | _, _ => false

/-- transformer `RuleOperationDiagnostic` status. -/
inductive OpStatus where
  | applied
  | skipped
  deriving DecidableEq

/-- transformer `RuleOperationDiagnostic`. -/
structure RuleOperationDiagnostic where
  matchIndex : Nat
  pointer : String
  op : Op
  summary : JsonPatchOperation
  status : OpStatus
  message : Option String

/-- Structural equality of operation diagnostics. It models the reference
equality of `Array.prototype.indexOf` in `reorderRemoveOperations`; the two
agree whenever the searched list holds pairwise structurally distinct
elements, which the staging loop guarantees (strictly increasing
`matchIndex`). -/
def RuleOperationDiagnostic.beq (a b : RuleOperationDiagnostic) : Bool :=
  a.matchIndex == b.matchIndex && a.pointer == b.pointer && a.op == b.op &&
    JsonPatchOperation.beq a.summary b.summary && a.status == b.status &&
    a.message == b.message

/-- transformer `compareRemoveOrder`. `Number(tokens[tokens.length - 1])` of
an empty token list is `Number(undefined) = NaN`, hence the `getLast?`
fallthrough to `0`. -/
def compareRemoveOrder (a b : JsonPatchOperation) : Int :=
  match a, b with
  | .remove aPath, .remove bPath =>
    let aTokens := splitPointerTotal aPath
    let bTokens := splitPointerTotal bPath
    let aParent := joinPointer aTokens.dropLast
    let bParent := joinPointer bTokens.dropLast
    if aParent ≠ bParent then 0
    else
      match aTokens.getLast?, bTokens.getLast? with
      | some aLast, some bLast =>
        match parseIntToken aLast, parseIntToken bLast with
        | some aIndex, some bIndex => bIndex - aIndex
        | _, _ => 0
      | _, _ => 0
  | _, _ => 0

/-- Stable sort by a JavaScript-style comparator: the earlier element is
kept in front of a later one unless the comparator orders it strictly
after. On a consistent comparator this is the unique stable sorted
permutation required by `Array.prototype.sort`. -/
def insertByCmp (cmp : α → α → Int) (a : α) : List α → List α
  | [] => [a]
  | b :: bs => if cmp a b ≤ 0 then a :: b :: bs else b :: insertByCmp cmp a bs

/-- Stable sort by a JavaScript-style comparator (see `insertByCmp`). -/
def sortByCmp (cmp : α → α → Int) : List α → List α
  | [] => []
  | a :: as => insertByCmp cmp a (sortByCmp cmp as)

/-- The ascending comparator `(a, b) => a - b` used on position lists. -/
def natCmpAsc (a b : Nat) : Int := (a : Int) - (b : Int)

/-- The grouping key of `reorderRemoveOperations`: the parent pointer of a
remove operation's path, `none` for non-remove summaries. -/
def removeParentKey (o : RuleOperationDiagnostic) : Option String :=
  match o.summary with
  | .remove path => some (joinPointer (splitPointerTotal path).dropLast)
  | _ => none

/-- One `group.push(op)` / `groups.set(parent, group)` step on the
insertion-ordered map of `reorderRemoveOperations`. -/
def addToGroup :
    List (String × List RuleOperationDiagnostic) → String →
      RuleOperationDiagnostic → List (String × List RuleOperationDiagnostic)
  | [], p, o => [(p, [o])]
  | (q, g) :: rest, p, o =>
    if q = p then (q, g ++ [o]) :: rest
    else (q, g) :: addToGroup rest p o

/-- The grouping pass of `reorderRemoveOperations` (a `Map` iterated in key
insertion order). -/
def buildGroups (operations : List RuleOperationDiagnostic) :
    List (String × List RuleOperationDiagnostic) :=
  operations.foldl
    (fun gs o =>
      match removeParentKey o with
      | none => gs
      | some p => addToGroup gs p o)
    []

/-- `positions.forEach((position, index) => { result[position] = sorted[index] })`. -/
def writeSlots :
    List RuleOperationDiagnostic → List (Nat × RuleOperationDiagnostic) →
      List RuleOperationDiagnostic
  | res, [] => res
  | res, (i, x) :: rest => writeSlots (res.set i x) rest

/-- The per-group body of `reorderRemoveOperations`: sort the group by
`compareRemoveOrder`, collect the group members' current positions
(`indexOf`, dropping `-1`s, sorted ascending), and write the sorted group
back into those position slots. -/
def processGroup (res : List RuleOperationDiagnostic)
    (group : List RuleOperationDiagnostic) : List RuleOperationDiagnostic :=
  let sorted := sortByCmp (fun a b => compareRemoveOrder a.summary b.summary) group
  let positions :=
    sortByCmp natCmpAsc
      (group.filterMap (fun o => res.findIdx? (fun x => x.beq o)))
  writeSlots res (positions.zip sorted)

/-- transformer `reorderRemoveOperations`. -/
def reorderRemoveOperations (operations : List RuleOperationDiagnostic) :
    List RuleOperationDiagnostic :=
  (buildGroups operations).foldl (fun res pg => processGroup res pg.2) operations

/-! ## The simple-JSONPath lowering (path-utils.ts lines 140-172). -/

/-- `[A-Za-z_]` of the lowering's regular expression. -/
def isSimpleIdentFirst (c : Char) : Bool :=
  ('A' ≤ c && c ≤ 'Z') || ('a' ≤ c && c ≤ 'z') || c == '_'

/-- `[A-Za-z0-9_]` of the lowering's regular expression. -/
def isSimpleIdentRest (c : Char) : Bool :=
  isSimpleIdentFirst c || c.isDigit

/-- The bracket-name character class `[^'"\\]`. -/
def isSimpleNameChar (c : Char) : Bool :=
  !(c == '\'' || c == '"' || c == '\\')

/-- Recursive descent equivalent to the contiguous `exec` loop of
`simpleJsonPathToPointer`: the remainder must be exactly a concatenation of
`.name`, `['name']` / `["name"]` (opening and closing quote each
independently either quote character, as in the source's character
classes), and `[digits]` segments. The fuel argument is the remaining
input length; every step consumes at least one character, so the
fuel-exhausted branch is unreachable from `simpleJsonPathToPointer`. -/
def parseSimpleSegments : Nat → List Char → List String → Option (List String)
  | _, [], acc => some acc.reverse
  | 0, _ :: _, _ => none
  | fuel + 1, '.' :: rest, acc =>
    match rest with
    | [] => none
    | c :: rest2 =>
      if isSimpleIdentFirst c then
        parseSimpleSegments fuel (rest2.dropWhile isSimpleIdentRest)
          (String.mk (c :: rest2.takeWhile isSimpleIdentRest) :: acc)
      else none
  | fuel + 1, '[' :: rest, acc =>
    match rest with
    | [] => none
    | q :: rest2 =>
      if q == '\'' || q == '"' then
        let name := rest2.takeWhile isSimpleNameChar
        match rest2.dropWhile isSimpleNameChar with
        | q2 :: ']' :: rest3 =>
          if (q2 == '\'' || q2 == '"') && !name.isEmpty then
            parseSimpleSegments fuel rest3 (String.mk name :: acc)
          else none
        | _ => none
      else if q.isDigit then
        let digits := (q :: rest2).takeWhile Char.isDigit
        match (q :: rest2).dropWhile Char.isDigit with
        | ']' :: rest3 => parseSimpleSegments fuel rest3 (String.mk digits :: acc)
        | _ => none
      else none
  | _ + 1, _ :: _, _ => none

/-- path-utils `simpleJsonPathToPointer`. -/
def simpleJsonPathToPointer (expression : String) : Option String :=
  let trimmed := trimString expression
  if !startsWithStr trimmed "$" then none
  else
    let remainder := strDrop trimmed 1
    if remainder == "" then some ""
    else
      match parseSimpleSegments remainder.data.length remainder.data [] with
      | none => none
      | some tokens =>
        if tokens.isEmpty then some ""
        else some ("/" ++ String.intercalate "/" (tokens.map encodePointerToken))

/-! ## The external query collaborator and the matcher evaluator
(transformer.ts lines 336-358). -/

/-- The interface of the external JSONPath collaborator: pointer-shaped or
value-shaped results for an expression against a document, or a raised
error message. The engine consumes it as a black box; `jsonpath-plus` with
its default wrapping always hands back an array, so each success is a
list (the source's defensive non-array branches collapse). -/
structure QueryOracle where
  pointers : Json → String → Except String (List String)
  values : Json → String → Except String (List Json)

/-- The guidance text appended when a matcher failure looks like an
undefined-property dereference. -/
def undefinedPropertyGuidance : String :=
  ". Ensure optional segments exist before comparing, e.g. @.inspection && @.inspection.meta && @.inspection.meta.status == \"OK\". JSONPath filters do not support JavaScript optional chaining syntax (?.)."

/-- The test `/Cannot read (properties|property) of undefined/i` on an
error message. -/
def mentionsUndefinedProperty (message : String) : Bool :=
  includesStr (String.mk (message.data.map Char.toLower))
      "cannot read properties of undefined" ||
    includesStr (String.mk (message.data.map Char.toLower))
      "cannot read property of undefined"

/-- `Array.from(new Set(normalizedPointers))`: first-seen-order
deduplication. -/
def dedupFirstSeen (pointers : List String) : List String :=
  pointers.foldl (fun acc p => if acc.contains p then acc else acc ++ [p]) []

/-- transformer `evaluatePointerMatches`. -/
def evaluatePointerMatches (q : QueryOracle) (document : Json)
    (matcher : String) : Except String (List String) :=
  let normalized := trimString matcher
  if normalized == "" then .error "Matcher JSONPath expression is empty"
  else
    match q.pointers document normalized with
    | .error message =>
      if mentionsUndefinedProperty message then
        .error (message ++ undefinedPropertyGuidance)
      else .error message
    | .ok raw => .ok (dedupFirstSeen (raw.map normalizePointer))

/-! ## Rules and resolvers (transformer.ts lines 8-41 and 360-506). -/

/-- Replace-rule `valueMode` (the TypeScript optional field with its
destructuring default `"auto"` made explicit). -/
inductive ValueMode where
  | auto
  | literal
  deriving DecidableEq

/-- Move-rule `targetMode` (destructuring default `"auto"`). -/
inductive MoveTargetMode where
  | auto
  | pointer
  | jsonpath
  deriving DecidableEq

/-- Rename-rule `targetMode` (the source reads it with `===` comparisons,
so an absent mode behaves as `auto`). -/
inductive RenameTargetMode where
  | auto
  | literal
  | jsonpath
  deriving DecidableEq

/-- The fields shared by every rule kind. -/
structure RuleBase where
  id : String
  matcher : String
  allowEmptyMatcher : Bool
  allowEmptyValue : Bool
  disabled : Bool

/-- transformer `Rule`, the tagged union of the four rule kinds. -/
inductive Rule where
  | remove (base : RuleBase)
  | replace (base : RuleBase) (value : Json) (valueMode : ValueMode)
  | move (base : RuleBase) (target : String) (targetMode : MoveTargetMode)
  | rename (base : RuleBase) (target : String) (targetMode : RenameTargetMode)

/-- The shared fields of a rule. -/
def Rule.base : Rule → RuleBase
  | .remove b => b
  | .replace b _ _ => b
  | .move b _ _ => b
  | .rename b _ _ => b

/-- The `op` discriminant of a rule. -/
def Rule.opTag : Rule → Op
  | .remove _ => .remove
  | .replace _ _ _ => .replace
  | .move _ _ _ => .move
  | .rename _ _ _ => .rename

/-- transformer `cloneValue`. The source deep-clones via `structuredClone`
(falling back to a JSON round-trip); on immutable embedded values a deep
clone is the value itself — reference-level sharing is not observable at
this level. -/
def cloneValue (v : Json) : Json := v

/-- transformer `resolveValueExpression` on a replace rule's `value` and
`valueMode`. -/
def resolveValueExpression (q : QueryOracle) (document : Json) (value : Json)
    (valueMode : ValueMode) : Except String Json :=
  match valueMode with
  | .literal => .ok (cloneValue value)
  | .auto =>
    match value with
    | .str s =>
      if startsWithStr (trimString s) "$" then
        match q.values document (trimString s) with
        | .error e => .error e
        | .ok resolved =>
          match resolved with
          | [v] => .ok v
          | vs =>
            .error s!"Expected exactly one value for JSONPath '{s}', received {vs.length}"
      else .ok (cloneValue value)
    | _ => .ok (cloneValue value)

/-- The `ensurePointerSafety(pointer); return pointer` tail shared by every
accepting branch of `resolveTargetPointer`. -/
def acceptTargetPointer (pointer : String) : Except String (Option String) :=
  match ensurePointerSafety pointer with
  | .error e => .error e
  | .ok _ => .ok (some pointer)

/-- transformer `resolveTargetPointer` on a move rule's `target`,
`targetMode` and `allowEmptyValue`; `none` is the source's `null`
("skip this match"). -/
def resolveTargetPointer (q : QueryOracle) (document : Json) (target : String)
    (targetMode : MoveTargetMode) (allowEmptyValue : Bool) :
    Except String (Option String) :=
  if trimString target == "" then
    .error "Move operations require a target pointer or JSONPath"
  else
    let trimmed := trimString target
    match targetMode with
    | .pointer => acceptTargetPointer (normalizePointer trimmed)
    | .jsonpath =>
      match q.pointers document trimmed with
      | .error e => .error e
      | .ok values =>
        match values with
        | [v] => acceptTargetPointer (normalizePointer v)
        | [] =>
          if allowEmptyValue then .ok none
          else
            match simpleJsonPathToPointer trimmed with
            | some fallbackPointer => acceptTargetPointer (normalizePointer fallbackPointer)
            | none =>
              .error s!"Expected exactly one target pointer for JSONPath '{target}', received 0"
        | vs =>
          .error s!"Expected exactly one target pointer for JSONPath '{target}', received {vs.length}"
    | .auto =>
      if startsWithStr trimmed "/" then acceptTargetPointer (normalizePointer trimmed)
      else if startsWithStr trimmed "$" then
        match q.pointers document trimmed with
        | .error e => .error e
        | .ok values =>
          match values with
          | [v] => acceptTargetPointer (normalizePointer v)
          | [] =>
            if allowEmptyValue then .ok none
            else
              -- the auto branch tests `if (fallbackPointer)`: a truthiness
              -- check, so the empty (root) pointer falls through to the
              -- arity error, unlike the explicit jsonpath branch above.
              match simpleJsonPathToPointer trimmed with
              | some fallbackPointer =>
                if fallbackPointer ≠ "" then acceptTargetPointer (normalizePointer fallbackPointer)
                else
                  .error s!"Expected exactly one target pointer for JSONPath '{target}', received 0"
              | none =>
                .error s!"Expected exactly one target pointer for JSONPath '{target}', received 0"
          | vs =>
            .error s!"Expected exactly one target pointer for JSONPath '{target}', received {vs.length}"
      else
        .error "Target must start with '/' for JSONPointer or '$' for JSONPath"

/-- transformer `coerceKey` (local to `resolveRenameTargetPointer`). -/
def coerceRenameKey (value : Json) : Except String String :=
  match value with
  | .str s =>
    if trimString s == "" then
      .error "Rename target must be a non-empty string"
    else .ok (trimString s)
  | _ => .error "Rename target must resolve to a string key"

/-- The post-resolution key checks of `resolveRenameTargetPointer`
(transformer.ts lines 488-505): reserved-key rejection, the same-key no-op
skip, the sibling-collision error, and on success the parent pointer with
the new key appended. -/
def renameKeyChecks (pointer : String) (parent : Json)
    (key nextKey : String) : Except String (Option String) :=
  match assertSafePointerKey nextKey with
  | .error e => .error e
  | .ok _ =>
    if nextKey = key then .ok none
    else if (match parent with
             | .obj fields => hasOwnField fields nextKey
             | _ => false) then
      .error s!"Property '{nextKey}' already exists on the target object"
    else
      match splitPointer pointer with
      | .error e => .error e
      | .ok tokens =>
        let nextPointer := joinPointer (tokens.dropLast ++ [nextKey])
        match ensurePointerSafety nextPointer with
        | .error e => .error e
        | .ok _ => .ok (some nextPointer)

/-- transformer `resolveRenameTargetPointer`; `none` is the source's `null`
("skip this match"). The `hasOwn` sibling test is meaningful only for an
object parent (the JavaScript quirk of own properties on boxed scalar
parents is outside the JSON data model). -/
def resolveRenameTargetPointer (q : QueryOracle) (document : Json)
    (pointer : String) (target : String) (targetMode : RenameTargetMode)
    (allowEmptyValue : Bool) : Except String (Option String) :=
  match getParentContext document pointer with
  | .error e => .error e
  | .ok none => .error "Cannot rename the root document"
  | .ok (some (parent, key)) =>
    if parent matches .null then .error "Cannot rename the root document"
    else if parent matches .arr _ then
      .error "Rename operations can only target object properties"
    else
      let trimmedTarget := trimString target
      if trimmedTarget == "" then
        if allowEmptyValue then .ok none
        else .error "Rename operations require a target key or JSONPath"
      else
        let nextKeyRes : Except String (Option String) :=
          match targetMode with
          | .literal =>
            match coerceRenameKey (.str trimmedTarget) with
            | .error e => .error e
            | .ok k => .ok (some k)
          | _ =>
            if targetMode = .jsonpath || startsWithStr trimmedTarget "$"
                || startsWithStr trimmedTarget "@" then
              match q.values parent trimmedTarget with
              | .error e => .error e
              | .ok resolved =>
                match resolved.filter (fun c => !(c matches .undef)) with
                | [] =>
                  if allowEmptyValue then .ok none
                  else
                    .error s!"Expected JSONPath '{target}' to resolve to exactly one string key"
                | [v] =>
                  match coerceRenameKey v with
                  | .error e => .error e
                  | .ok k => .ok (some k)
                | vs =>
                  .error s!"Expected JSONPath '{target}' to resolve to exactly one string key but received {vs.length}"
            else
              match coerceRenameKey (.str trimmedTarget) with
              | .error e => .error e
              | .ok k => .ok (some k)
        match nextKeyRes with
        | .error e => .error e
        | .ok none => .ok none
        | .ok (some nextKey) => renameKeyChecks pointer parent key nextKey

/-! ## The executor (transformer.ts lines 508-523 and 688-727). -/

/-- transformer `applyOperation`. One embedding nuance: the source mutates
the working document in place and exceptions do not undo mutations, so
when the destination insert of a `move` throws after the source value was
already removed, the caller's document reference keeps that removal. The
returned pair is (the document as the caller observes it after the call,
the thrown message if any); for `remove` and `replace` every failing check
precedes the mutation, so a failure returns the document unchanged. -/
def applyOperation (document : Json) (operation : JsonPatchOperation) :
    Json × Option String :=
  match operation with
  | .remove path =>
    match removeAtPointer document path with
    | .ok d => (d, none)
    | .error e => (document, some e)
  | .replace path value =>
    match replaceAtPointer document path value with
    | .ok d => (d, none)
    | .error e => (document, some e)
  | .move path fromPtr =>
    match getValueAtPointer document fromPtr with
    | .error e => (document, some e)
    | .ok v =>
      let value := cloneValue v
      match removeAtPointer document fromPtr with
      | .error e => (document, some e)
      | .ok intermediate =>
        match addAtPointer intermediate path value with
        | .ok final => (final, none)
        | .error e => (intermediate, some e)

/-- The kind prefix of an application-failure message. -/
def failurePrefix : Op → String
  | .remove => "Remove"
  | .replace => "Replace"
  | _ => "Move"

/-- The state threaded through the apply loop of `runTransformer`. -/
structure ApplyState where
  workingDocument : Json
  orderedOperations : List RuleOperationDiagnostic
  appliedOperations : List JsonPatchOperation
  ruleErrors : List String

/-- One iteration of the apply loop (transformer.ts lines 688-727): apply
the staged summary, mark the diagnostic `applied` and record the summary on
success, or mark it `skipped` with the thrown message and record a
kind-prefixed rule error on failure. -/
def applyStagedOperation (st : ApplyState)
    (operation : RuleOperationDiagnostic) : ApplyState :=
  let step := applyOperation st.workingDocument operation.summary
  match step.2 with
  | none =>
    { workingDocument := step.1,
      orderedOperations :=
        st.orderedOperations ++ [{ operation with status := .applied }],
      appliedOperations := st.appliedOperations ++ [operation.summary],
      ruleErrors := st.ruleErrors }
  | some message =>
    { workingDocument := step.1,
      orderedOperations :=
        st.orderedOperations ++
          [{ operation with status := .skipped, message := some message }],
      appliedOperations := st.appliedOperations,
      ruleErrors :=
        st.ruleErrors ++
          [s!"{failurePrefix operation.summary.opTag} {operation.pointer} failed: {message}"] }

/-! ## Staging and the per-rule pipeline (transformer.ts lines 525-765). -/

/-- The mutable per-rule staging state of `runTransformer`'s match loop. -/
structure StageState where
  operations : List RuleOperationDiagnostic
  ruleErrors : List String
  suppressNoOpWarning : Bool

/-- The body of `matches.forEach((pointer, matchIndex) => ...)`
(transformer.ts lines 596-678), for one matched pointer. -/
def stageMatch (q : QueryOracle) (workingDocument : Json) (ruleIndex : Nat)
    (rule : Rule) (matchIndex : Nat) (pointer : String) (st : StageState) :
    StageState :=
  match rule with
  | .remove _ =>
    { st with
      operations :=
        st.operations ++
          [{ matchIndex, pointer, op := .remove, summary := .remove pointer,
             status := .skipped, message := none }] }
  | .replace base value valueMode =>
    match resolveValueExpression q workingDocument value valueMode with
    | .ok resolvedValue =>
      if (resolvedValue matches .undef) && base.allowEmptyValue then
        { st with suppressNoOpWarning := true }
      else
        { st with
          operations :=
            st.operations ++
              [{ matchIndex, pointer, op := .replace,
                 summary := .replace pointer resolvedValue,
                 status := .skipped, message := none }] }
    | .error message =>
      if base.allowEmptyValue && includesStr message "Expected exactly one value" then
        { st with suppressNoOpWarning := true }
      else
        { st with
          ruleErrors :=
            st.ruleErrors ++
              [s!"Rule {ruleIndex + 1} replace value error: {message}"] }
  | .rename base target targetMode =>
    match resolveRenameTargetPointer q workingDocument pointer target targetMode
        base.allowEmptyValue with
    | .ok none => { st with suppressNoOpWarning := true }
    | .ok (some targetPointer) =>
      { st with
        operations :=
          st.operations ++
            [{ matchIndex, pointer, op := .rename,
               summary := .move targetPointer pointer,
               status := .skipped, message := none }] }
    | .error message =>
      if base.allowEmptyValue && includesStr message "resolve to exactly one string key" then
        { st with suppressNoOpWarning := true }
      else
        { st with
          ruleErrors :=
            st.ruleErrors ++
              [s!"Rule {ruleIndex + 1} rename target error: {message}"] }
  | .move base target targetMode =>
    match resolveTargetPointer q workingDocument target targetMode
        base.allowEmptyValue with
    | .ok none => { st with suppressNoOpWarning := true }
    | .ok (some targetPointer) =>
      { st with
        operations :=
          st.operations ++
            [{ matchIndex, pointer, op := .move,
               summary := .move targetPointer pointer,
               status := .skipped, message := none }] }
    | .error message =>
      { st with
        ruleErrors :=
          st.ruleErrors ++
            [s!"Rule {ruleIndex + 1} move target error: {message}"] }

/-- transformer `RuleDiagnostic`. -/
structure RuleDiagnostic where
  ruleId : String
  matcher : String
  op : Op
  matchCount : Nat
  operations : List RuleOperationDiagnostic
  errors : List String
  warnings : List String

/-- One iteration of `rules.forEach` (transformer.ts lines 543-741):
matcher evaluation, the replace empty-value check, staging, the no-effect
warning, removal reordering, and application. Returns the new working
document, the rule's diagnostic, and the summaries applied by this rule. -/
def applyRule (q : QueryOracle) (ruleIndex : Nat) (workingDocument : Json)
    (rule : Rule) : Json × RuleDiagnostic × List JsonPatchOperation :=
  if rule.base.disabled then
    (workingDocument,
     { ruleId := rule.base.id, matcher := rule.base.matcher, op := rule.opTag,
       matchCount := 0, operations := [], errors := [], warnings := [] },
     [])
  else
    let trimmedMatcher := trimString rule.base.matcher
    let afterMatch :
        List String × List String × Bool :=
      if trimmedMatcher == "" then ([], [], true)
      else
        match evaluatePointerMatches q workingDocument rule.base.matcher with
        | .ok ms => (ms, [], ms.isEmpty && rule.base.allowEmptyMatcher)
        | .error message =>
          ([],
           [s!"Rule {ruleIndex + 1} ({rule.opTag.asString}) matcher error: {message}"],
           rule.base.allowEmptyMatcher)
    let afterEmptyValue :
        List String × List String × Bool :=
      match rule with
      | .replace base value _ =>
        if value matches .undef then
          if base.allowEmptyValue then ([], afterMatch.2.1, true)
          else
            ([],
             afterMatch.2.1 ++
               [s!"Rule {ruleIndex + 1} replace value error: replacement value is required"],
             afterMatch.2.2)
        else afterMatch
      | _ => afterMatch
    let matchList := afterEmptyValue.1
    let staged :=
      matchList.enum.foldl
        (fun st ip => stageMatch q workingDocument ruleIndex rule ip.1 ip.2 st)
        { operations := [], ruleErrors := afterEmptyValue.2.1,
          suppressNoOpWarning := afterEmptyValue.2.2 }
    let ruleWarnings :=
      if !staged.suppressNoOpWarning && staged.operations.isEmpty
          && matchList.isEmpty && staged.ruleErrors.isEmpty then
        ["No matches produced patch operations"]
      else []
    let orderedOperations := reorderRemoveOperations staged.operations
    let applied :=
      orderedOperations.foldl applyStagedOperation
        { workingDocument := workingDocument, orderedOperations := [],
          appliedOperations := [], ruleErrors := staged.ruleErrors }
    (applied.workingDocument,
     { ruleId := rule.base.id, matcher := rule.base.matcher, op := rule.opTag,
       matchCount := matchList.length, operations := applied.orderedOperations,
       errors := applied.ruleErrors, warnings := ruleWarnings },
     applied.appliedOperations)

/-- transformer `TransformerResult` (without the optional encoded-output
extension, which only serializes the final document). -/
structure TransformerResult where
  ok : Bool
  document : Json
  operations : List JsonPatchOperation
  diagnostics : List RuleDiagnostic
  errors : List String
  warnings : List String

/-- The accumulating state of the rule loop. -/
structure RunAcc where
  document : Json
  diagnostics : List RuleDiagnostic
  operations : List JsonPatchOperation
  errors : List String
  warnings : List String

/-- `rules.forEach((rule, ruleIndex) => ...)` from the rule at position
`startIndex` onward. -/
def runRulesFrom (q : QueryOracle) :
    Nat → RunAcc → List Rule → RunAcc
  | _, acc, [] => acc
  | startIndex, acc, rule :: rest =>
    let step := applyRule q startIndex acc.document rule
    runRulesFrom q (startIndex + 1)
      { document := step.1,
        diagnostics := acc.diagnostics ++ [step.2.1],
        operations := acc.operations ++ step.2.2,
        errors := acc.errors ++ step.2.1.errors,
        warnings := acc.warnings ++ step.2.1.warnings }
      rest

/-- transformer `runTransformer` (the overload without options). -/
def runTransformer (q : QueryOracle) (input : Json) (rules : List Rule) :
    TransformerResult :=
  let final :=
    runRulesFrom q 0
      { document := cloneValue input, diagnostics := [], operations := [],
        errors := [], warnings := [] }
      rules
  { ok := final.errors.isEmpty, document := final.document,
    operations := final.operations, diagnostics := final.diagnostics,
    errors := final.errors, warnings := final.warnings }

/-! ## General lemmas about the embedding -/

/-- A successful `splitPointer` computes `splitPointerTotal`. -/
theorem splitPointer_ok_eq_total {p : String} {toks : List String}
    (h : splitPointer p = .ok toks) : toks = splitPointerTotal p := by
  unfold splitPointer at h
  unfold splitPointerTotal
  by_cases hp : (p == "") = true
  · rw [if_pos hp] at h
    rw [if_pos hp]
    injection h with h
    exact h.symm
  · rw [if_neg hp] at h
    rw [if_neg hp]
    by_cases hs : (!startsWithStr p "/") = true
    · rw [if_pos hs] at h
      exact absurd h (by simp)
    · rw [if_neg hs] at h
      injection h with h
      exact h.symm

/-- A pointer accepted by `ensurePointerSafety` has no reserved
inheritance-chain token. -/
theorem ensurePointerSafety_ok_no_unsafe {p : String}
    (h : ensurePointerSafety p = .ok ()) :
    ∀ tok ∈ splitPointerTotal p, isUnsafePointerKey tok = false := by
  intro tok htok
  unfold ensurePointerSafety at h
  by_cases hp : p == ""
  · rw [show p = "" from by simpa using hp] at htok
    simp [splitPointerTotal] at htok
  · simp only [hp, Bool.false_eq_true, if_false] at h
    cases hsplit : splitPointer p with
    | error e => rw [hsplit] at h; simp [Bind.bind, Except.bind] at h
    | ok toks =>
      rw [hsplit] at h
      simp only [Bind.bind, Except.bind] at h
      cases hfind : toks.find? (fun token => isUnsafePointerKey token) with
      | some t => rw [hfind] at h; simp [throw, throwThe, MonadExceptOf.throw] at h
      | none =>
        have := List.find?_eq_none.mp hfind
        have htot := splitPointer_ok_eq_total hsplit
        have := this tok (by rw [htot]; exact htok)
        simpa using this

/-- `containsSubList` holds whenever the pattern is a prefix. -/
theorem containsSubList_of_isPrefixOf {pat cs : List Char}
    (h : pat.isPrefixOf cs = true) : containsSubList pat cs = true := by
  cases cs with
  | nil =>
    cases pat with
    | nil => rfl
    | cons c cs' => simp [List.isPrefixOf] at h
  | cons c rest => simp [containsSubList, h]

/-- `includesStr` holds when the pattern starts the string. -/
theorem includesStr_of_prefix {s pat : String}
    (h : pat.data.isPrefixOf s.data = true) : includesStr s pat = true :=
  containsSubList_of_isPrefixOf h

/-- Prefixes extend along list append. -/
theorem isPrefixOf_append_of_isPrefixOf {pat l r : List Char}
    (h : pat.isPrefixOf l = true) : pat.isPrefixOf (l ++ r) = true := by
  rw [List.isPrefixOf_iff_prefix] at h ⊢
  exact h.trans (List.prefix_append l r)

/-- The empty pattern is contained everywhere. -/
theorem containsSubList_nil (cs : List Char) :
    containsSubList [] cs = true := by
  cases cs with
  | nil => rfl
  | cons c rest => simp [containsSubList, List.isPrefixOf]

/-- Containment extends to the right of an append. -/
theorem containsSubList_append_left {pat l : List Char} (r : List Char)
    (h : containsSubList pat l = true) :
    containsSubList pat (l ++ r) = true := by
  induction l with
  | nil =>
    simp only [containsSubList] at h
    have : pat = [] := by
      cases pat with
      | nil => rfl
      | cons p ps => simp [List.isEmpty] at h
    subst this
    exact containsSubList_nil r
  | cons c l' ih =>
    simp only [containsSubList, Bool.or_eq_true] at h
    rcases h with h | h
    · simp only [List.cons_append, containsSubList, Bool.or_eq_true]
      exact Or.inl (isPrefixOf_append_of_isPrefixOf (l := c :: l') h)
    · simp only [List.cons_append, containsSubList, Bool.or_eq_true]
      exact Or.inr (ih h)

/-- Containment extends to the left of an append. -/
theorem containsSubList_append_right {pat r : List Char} (l : List Char)
    (h : containsSubList pat r = true) :
    containsSubList pat (l ++ r) = true := by
  induction l with
  | nil => simpa using h
  | cons c l' ih =>
    simp only [List.cons_append, containsSubList, Bool.or_eq_true]
    exact Or.inr ih

/-! ## C2 — error containment of the apply loop.

The claim states that a failing staged operation leaves the working
document exactly as it was before that step, including for `move`. For
`remove` and `replace` the source indeed checks everything before
mutating, but `applyOperation`'s `move` arm removes the source value in
place and only then inserts it at the destination: when that insert throws
(for instance an out-of-bounds destination index), the already-performed
removal stays visible in the working document, contradicting the claim and
the repository's own specification ("leave the working document
unchanged"). The run below exhibits it: the move of `/a` into `/arr/5`
fails at the insert, the operation is reported `skipped` with the
kind-prefixed message, later rules still run — but the document has lost
`a`. -/

/-- Oracle for the C2 run: the first matcher selects `/a`, the second
selects `/x`. -/
def c2Oracle : QueryOracle :=
  { pointers := fun _ e =>
      if e == "$.a" then .ok ["/a"]
      else if e == "$.x" then .ok ["/x"]
      else .ok [],
    values := fun _ _ => .ok [] }

/-- The C2 input document `{a: 1, arr: [], x: 2}`. -/
def c2Doc : Json := .obj [("a", .num 1), ("arr", .arr []), ("x", .num 2)]

/-- The failing move rule of the C2 run. -/
def c2MoveRule : Rule :=
  .move { id := "m1", matcher := "$.a", allowEmptyMatcher := false,
          allowEmptyValue := false, disabled := false }
    "/arr/5" .auto

/-- A subsequent remove rule, showing that later operations still run. -/
def c2RemoveRule : Rule :=
  .remove { id := "m2", matcher := "$.x", allowEmptyMatcher := false,
            allowEmptyValue := false, disabled := false }

/-- C2: a staged move whose application fails is marked skipped with a
kind-prefixed message and later rules still execute — but, contrary to the
claim, the working document is *not* as it was before the failed step: the
move's source (`a`) has already been removed when the destination insert
of `remove /a → /arr/5` throws, so the final document is `{arr: []}`
(after the second rule removes `x`) instead of retaining `a: 1`. -/
theorem C2_move_partial_mutation :
    (runTransformer c2Oracle c2Doc [c2MoveRule, c2RemoveRule]).document =
        .obj [("arr", .arr [])] ∧
      (runTransformer c2Oracle c2Doc [c2MoveRule, c2RemoveRule]).errors =
        ["Move /a failed: Array index 5 is out of bounds"] ∧
      (runTransformer c2Oracle c2Doc [c2MoveRule, c2RemoveRule]).diagnostics.map
          (fun d => d.operations.map (fun o => (o.status, o.message))) =
        [[(.skipped, some "Array index 5 is out of bounds")], [(.applied, none)]] ∧
      (runTransformer c2Oracle c2Doc [c2MoveRule, c2RemoveRule]).operations =
        [.remove "/x"] := by
  refine ⟨rfl, rfl, rfl, rfl⟩

/-! ## C3 — arity enforcement for replace/move/rename queries. -/

/-- Containment extends to the right of a string append. -/
theorem includesStr_append_left (a b pat : String)
    (h : includesStr a pat = true) : includesStr (a ++ b) pat = true := by
  unfold includesStr at *
  rw [String.data_append]
  exact containsSubList_append_left _ h

/-- Containment extends to the left of a string append. -/
theorem includesStr_append_right (a b pat : String)
    (h : includesStr b pat = true) : includesStr (a ++ b) pat = true := by
  unfold includesStr at *
  rw [String.data_append]
  exact containsSubList_append_right _ h

/-- C3 (amended): a replace, move or rename query resolving to two or more
results records an error naming the expression and the observed count and
stages no operation — *except* that with `allowEmptyValue` set, replace
and rename rules swallow the arity error into a silent skip (their catch
blocks suppress any message containing "Expected exactly one value" /
"resolve to exactly one string key", which the many-results message does);
only move rules report the arity error for every setting of the flag. -/
theorem C3_arity_enforcement (q : QueryOracle) (doc : Json) (i mi : Nat)
    (ptr : String) (st : StageState) :
    (∀ (base : RuleBase) (s : String) (v1 v2 : Json) (rest : List Json),
        base.allowEmptyValue = false →
        startsWithStr (trimString s) "$" = true →
        q.values doc (trimString s) = .ok (v1 :: v2 :: rest) →
        stageMatch q doc i (.replace base (.str s) .auto) mi ptr st =
          (let m : String :=
            s!"Expected exactly one value for JSONPath '{s}', received {(v1 :: v2 :: rest).length}"
          { st with
            ruleErrors := st.ruleErrors ++
              [s!"Rule {i + 1} replace value error: {m}"] })) ∧
    (∀ (base : RuleBase) (s : String) (v1 v2 : Json) (rest : List Json),
        base.allowEmptyValue = true →
        startsWithStr (trimString s) "$" = true →
        q.values doc (trimString s) = .ok (v1 :: v2 :: rest) →
        stageMatch q doc i (.replace base (.str s) .auto) mi ptr st =
          { st with suppressNoOpWarning := true }) ∧
    (∀ (base : RuleBase) (target p1 p2 : String) (prest : List String),
        (trimString target == "") = false →
        q.pointers doc (trimString target) = .ok (p1 :: p2 :: prest) →
        stageMatch q doc i (.move base target .jsonpath) mi ptr st =
          (let m : String :=
            s!"Expected exactly one target pointer for JSONPath '{target}', received {(p1 :: p2 :: prest).length}"
          { st with
            ruleErrors := st.ruleErrors ++
              [s!"Rule {i + 1} move target error: {m}"] })) ∧
    (∀ (base : RuleBase) (target p1 p2 : String) (prest : List String),
        (trimString target == "") = false →
        startsWithStr (trimString target) "/" = false →
        startsWithStr (trimString target) "$" = true →
        q.pointers doc (trimString target) = .ok (p1 :: p2 :: prest) →
        stageMatch q doc i (.move base target .auto) mi ptr st =
          (let m : String :=
            s!"Expected exactly one target pointer for JSONPath '{target}', received {(p1 :: p2 :: prest).length}"
          { st with
            ruleErrors := st.ruleErrors ++
              [s!"Rule {i + 1} move target error: {m}"] })) ∧
    (∀ (base : RuleBase) (target : String) (fields : List (String × Json))
        (key : String) (vs : List Json) (w1 w2 : Json) (wrest : List Json),
        base.allowEmptyValue = false →
        getParentContext doc ptr = .ok (some (.obj fields, key)) →
        (trimString target == "") = false →
        q.values (.obj fields) (trimString target) = .ok vs →
        vs.filter (fun c => !(c matches .undef)) = w1 :: w2 :: wrest →
        stageMatch q doc i (.rename base target .jsonpath) mi ptr st =
          (let m : String :=
            s!"Expected JSONPath '{target}' to resolve to exactly one string key but received {(w1 :: w2 :: wrest).length}"
          { st with
            ruleErrors := st.ruleErrors ++
              [s!"Rule {i + 1} rename target error: {m}"] })) ∧
    (∀ (base : RuleBase) (target : String) (fields : List (String × Json))
        (key : String) (vs : List Json) (w1 w2 : Json) (wrest : List Json),
        base.allowEmptyValue = true →
        getParentContext doc ptr = .ok (some (.obj fields, key)) →
        (trimString target == "") = false →
        q.values (.obj fields) (trimString target) = .ok vs →
        vs.filter (fun c => !(c matches .undef)) = w1 :: w2 :: wrest →
        stageMatch q doc i (.rename base target .jsonpath) mi ptr st =
          { st with suppressNoOpWarning := true }) := by
  refine ⟨?_, ?_, ?_, ?_, ?_, ?_⟩
  · intro base s v1 v2 rest hA hs hq
    have hres : resolveValueExpression q doc (.str s) .auto =
        .error s!"Expected exactly one value for JSONPath '{s}', received {(v1 :: v2 :: rest).length}" := by
      simp only [resolveValueExpression, hs, if_true, hq]
    simp only [stageMatch, hres, hA, Bool.false_and, Bool.false_eq_true, if_false]
  · intro base s v1 v2 rest hA hs hq
    have hres : resolveValueExpression q doc (.str s) .auto =
        .error s!"Expected exactly one value for JSONPath '{s}', received {(v1 :: v2 :: rest).length}" := by
      simp only [resolveValueExpression, hs, if_true, hq]
    have hinc : includesStr
        (s!"Expected exactly one value for JSONPath '{s}', received {(v1 :: v2 :: rest).length}" : String)
        "Expected exactly one value" = true := by
      apply includesStr_append_left
      apply includesStr_append_left
      apply includesStr_append_left
      apply includesStr_append_left
      rfl
    simp only [stageMatch, hres, hA, Bool.true_and, hinc, if_true]
  · intro base target p1 p2 prest htne hq
    have hres : resolveTargetPointer q doc target .jsonpath base.allowEmptyValue =
        .error s!"Expected exactly one target pointer for JSONPath '{target}', received {(p1 :: p2 :: prest).length}" := by
      simp only [resolveTargetPointer, htne, Bool.false_eq_true, if_false, hq]
    simp only [stageMatch, hres]
  · intro base target p1 p2 prest htne hslash hdollar hq
    have hres : resolveTargetPointer q doc target .auto base.allowEmptyValue =
        .error s!"Expected exactly one target pointer for JSONPath '{target}', received {(p1 :: p2 :: prest).length}" := by
      simp only [resolveTargetPointer, htne, Bool.false_eq_true, if_false, hslash, hdollar,
        if_true, hq]
    simp only [stageMatch, hres]
  · intro base target fields key vs w1 w2 wrest hA hpc htne hqv hfil
    have hres : resolveRenameTargetPointer q doc ptr target .jsonpath base.allowEmptyValue =
        .error s!"Expected JSONPath '{target}' to resolve to exactly one string key but received {(w1 :: w2 :: wrest).length}" := by
      simp only [resolveRenameTargetPointer, hpc, htne, Bool.false_eq_true, if_false, hqv,
        hfil, decide_True, Bool.true_or, if_true]
    rw [hA] at hres
    simp only [stageMatch, hA, hres, Bool.false_and, Bool.false_eq_true, if_false]
  · intro base target fields key vs w1 w2 wrest hA hpc htne hqv hfil
    have hres : resolveRenameTargetPointer q doc ptr target .jsonpath base.allowEmptyValue =
        .error s!"Expected JSONPath '{target}' to resolve to exactly one string key but received {(w1 :: w2 :: wrest).length}" := by
      simp only [resolveRenameTargetPointer, hpc, htne, Bool.false_eq_true, if_false, hqv,
        hfil, decide_True, Bool.true_or, if_true]
    have hinc : includesStr
        (s!"Expected JSONPath '{target}' to resolve to exactly one string key but received {(w1 :: w2 :: wrest).length}" : String)
        "resolve to exactly one string key" = true := by
      apply includesStr_append_left
      apply includesStr_append_left
      apply includesStr_append_right
      rfl
    rw [hA] at hres
    simp only [stageMatch, hA, hres, Bool.true_and, hinc, if_true]

/-- Witness for C3: a replace query returning two values with
`allowEmptyValue` unset records the arity error naming the expression and
the count 2, and a move target query returning two pointers errors even
with `allowEmptyValue` set. -/
theorem C3_arity_enforcement_witness :
    stageMatch
        { pointers := fun _ _ => .ok ["/p", "/q"],
          values := fun _ _ => .ok [.num 1, .num 2] }
        (.obj [("a", .num 0)]) 0
        (.replace { id := "w3", matcher := "$.a", allowEmptyMatcher := false,
                    allowEmptyValue := false, disabled := false }
          (.str "$.vs") .auto)
        0 "/a" { operations := [], ruleErrors := [], suppressNoOpWarning := false } =
      { operations := [],
        ruleErrors :=
          ["Rule 1 replace value error: Expected exactly one value for JSONPath '$.vs', received 2"],
        suppressNoOpWarning := false } ∧
    stageMatch
        { pointers := fun _ _ => .ok ["/p", "/q"],
          values := fun _ _ => .ok [.num 1, .num 2] }
        (.obj [("a", .num 0)]) 0
        (.move { id := "w3m", matcher := "$.a", allowEmptyMatcher := false,
                 allowEmptyValue := true, disabled := false }
          "$.t" .jsonpath)
        0 "/a" { operations := [], ruleErrors := [], suppressNoOpWarning := false } =
      { operations := [],
        ruleErrors :=
          ["Rule 1 move target error: Expected exactly one target pointer for JSONPath '$.t', received 2"],
        suppressNoOpWarning := false } := by
  constructor
  · have h := (C3_arity_enforcement
        { pointers := fun _ _ => .ok ["/p", "/q"],
          values := fun _ _ => .ok [.num 1, .num 2] }
        (.obj [("a", .num 0)]) 0 0 "/a"
        { operations := [], ruleErrors := [], suppressNoOpWarning := false }).1
      { id := "w3", matcher := "$.a", allowEmptyMatcher := false,
        allowEmptyValue := false, disabled := false }
      "$.vs" (.num 1) (.num 2) [] rfl rfl rfl
    rw [h]
    rfl
  · have h := (C3_arity_enforcement
        { pointers := fun _ _ => .ok ["/p", "/q"],
          values := fun _ _ => .ok [.num 1, .num 2] }
        (.obj [("a", .num 0)]) 0 0 "/a"
        { operations := [], ruleErrors := [], suppressNoOpWarning := false }).2.2.1
      { id := "w3m", matcher := "$.a", allowEmptyMatcher := false,
        allowEmptyValue := true, disabled := false }
      "$.t" "/p" "/q" [] rfl rfl
    rw [h]
    rfl

/-- Oracle for the C3 counterexample: one matcher pointer, a two-valued
value query. -/
def c3Oracle : QueryOracle :=
  { pointers := fun _ _ => .ok ["/a"],
    values := fun _ _ => .ok [.num 1, .num 2] }

/-- C3 counterexample: a replace rule whose embedded query yields two
values with `allowEmptyValue = true` records *no* error and stages no
operation — the claim's "always records an error … for all settings of
the allow-empty-value flag" fails. -/
theorem C3_arity_enforcement_cx :
    (runTransformer c3Oracle (.obj [("a", .num 0)])
          [.replace { id := "c3", matcher := "$.a", allowEmptyMatcher := false,
                      allowEmptyValue := true, disabled := false }
            (.str "$.vs") .auto]).errors = [] ∧
      (runTransformer c3Oracle (.obj [("a", .num 0)])
          [.replace { id := "c3", matcher := "$.a", allowEmptyMatcher := false,
                      allowEmptyValue := true, disabled := false }
            (.str "$.vs") .auto]).diagnostics.map (fun d => d.operations) = [[]] := by
  refine ⟨rfl, rfl⟩

/-! ## C4 — `matchCount` is the deduplicated pointer count. -/

/-- Is the rule a replace rule whose `value` is `undefined`? Such a rule
short-circuits: `runTransformer` clears its match list before staging
(transformer.ts lines 578-592). -/
def replaceValueIsUndefined (rule : Rule) : Bool :=
  match rule with
  | .replace _ .undef _ => true
  | _ => false

/-- Is the rule a replace rule whose `value` is `undefined` while
`allowEmptyValue` is unset (the case that records the
"replacement value is required" error)? -/
def replaceValueRequired (rule : Rule) : Bool :=
  match rule with
  | .replace base .undef _ => !base.allowEmptyValue
  | _ => false

/-- C4 (amended): for an enabled rule with a nonempty trimmed matcher
whose query returns the pointer list `ps`, and which is not a replace rule
with an `undefined` value, the diagnostic's `matchCount` is the length of
the first-seen-order deduplication of the normalized pointers — whatever
the rule kind and whatever happens during value or target resolution. -/
theorem C4_match_count (q : QueryOracle) (i : Nat) (doc : Json) (rule : Rule)
    (ps : List String)
    (hdis : rule.base.disabled = false)
    (htm : (trimString rule.base.matcher == "") = false)
    (hq : q.pointers doc (trimString rule.base.matcher) = .ok ps)
    (hundef : replaceValueIsUndefined rule = false) :
    (applyRule q i doc rule).2.1.matchCount =
      (dedupFirstSeen (ps.map normalizePointer)).length := by
  have heval : evaluatePointerMatches q doc rule.base.matcher =
      .ok (dedupFirstSeen (ps.map normalizePointer)) := by
    unfold evaluatePointerMatches
    simp only [htm, Bool.false_eq_true, if_false, hq]
  cases rule with
  | remove base =>
    simp only [applyRule, Rule.base] at *
    simp [hdis, htm, heval]
  | replace base value vm =>
    cases value with
    | undef => simp [replaceValueIsUndefined] at hundef
    | null =>
      simp only [applyRule, Rule.base] at *
      simp [hdis, htm, heval]
    | bool b =>
      simp only [applyRule, Rule.base] at *
      simp [hdis, htm, heval]
    | num n =>
      simp only [applyRule, Rule.base] at *
      simp [hdis, htm, heval]
    | str s =>
      simp only [applyRule, Rule.base] at *
      simp [hdis, htm, heval]
    | arr xs =>
      simp only [applyRule, Rule.base] at *
      simp [hdis, htm, heval]
    | obj fs =>
      simp only [applyRule, Rule.base] at *
      simp [hdis, htm, heval]
  | move base target tm =>
    simp only [applyRule, Rule.base] at *
    simp [hdis, htm, heval]
  | rename base target tm =>
    simp only [applyRule, Rule.base] at *
    simp [hdis, htm, heval]

/-- Witness for C4: a concrete remove rule whose matcher returns
`["/a", "/b", "/a"]`; the deduplicated count, and hence `matchCount`,
is 2. -/
theorem C4_match_count_witness :
    (applyRule
        { pointers := fun _ _ => .ok ["/a", "/b", "/a"],
          values := fun _ _ => .ok [] }
        0 (.obj [("a", .num 1), ("b", .num 2)])
        (.remove { id := "w4", matcher := "$.q", allowEmptyMatcher := false,
                   allowEmptyValue := false, disabled := false })).2.1.matchCount = 2 := by
  have h := C4_match_count
    { pointers := fun _ _ => .ok ["/a", "/b", "/a"],
      values := fun _ _ => .ok [] }
    0 (.obj [("a", .num 1), ("b", .num 2)])
    (.remove { id := "w4", matcher := "$.q", allowEmptyMatcher := false,
               allowEmptyValue := false, disabled := false })
    ["/a", "/b", "/a"] rfl rfl rfl rfl
  simpa using h

/-- Oracle for the C4 counterexample: the matcher yields two distinct
pointers. -/
def c4Oracle : QueryOracle :=
  { pointers := fun _ _ => .ok ["/a", "/b"],
    values := fun _ _ => .ok [] }

/-- C4 counterexample: an enabled replace rule whose `value` is `undefined`
reports `matchCount = 0` although its matcher returned two distinct
pointers (which dedup to two) — the claim's "regardless of the rule kind
and of whether value or target resolution later succeeds" fails. -/
theorem C4_match_count_cx :
    (runTransformer c4Oracle (.obj [("a", .num 1), ("b", .num 2)])
          [.replace { id := "c4", matcher := "$.q", allowEmptyMatcher := false,
                      allowEmptyValue := false, disabled := false }
            .undef .auto]).diagnostics.map (fun d => d.matchCount) = [0] ∧
      dedupFirstSeen (["/a", "/b"].map normalizePointer) = ["/a", "/b"] := by
  refine ⟨rfl, rfl⟩

/-! ## C5 — the prototype-pollution guard. -/

/-- An accepted target pointer passed `ensurePointerSafety`. -/
theorem acceptTargetPointer_ok {x p : String}
    (h : acceptTargetPointer x = .ok (some p)) :
    p = x ∧ ensurePointerSafety x = .ok () := by
  unfold acceptTargetPointer at h
  cases he : ensurePointerSafety x with
  | error e => rw [he] at h; cases h
  | ok u =>
    cases u
    rw [he] at h
    injection h with h
    injection h with h
    exact ⟨h.symm, rfl⟩

/-- Every destination pointer accepted by the move resolver is free of
reserved inheritance-chain tokens. -/
theorem resolveTargetPointer_ok_safe {q : QueryOracle} {doc : Json}
    {target : String} {tm : MoveTargetMode} {aev : Bool} {p : String}
    (h : resolveTargetPointer q doc target tm aev = .ok (some p)) :
    ∀ tok ∈ splitPointerTotal p, isUnsafePointerKey tok = false := by
  simp only [resolveTargetPointer] at h
  repeat' split at h
  all_goals try exact Except.noConfusion h
  all_goals try exact Option.noConfusion (Except.ok.inj h)
  all_goals
    obtain ⟨hp, he⟩ := acceptTargetPointer_ok h
  all_goals
    subst hp
  all_goals
    exact ensurePointerSafety_ok_no_unsafe he

/-- Every destination pointer produced by the rename key checks is free of
reserved inheritance-chain tokens. -/
theorem renameKeyChecks_ok_safe {pointer : String} {parent : Json}
    {key nextKey p : String}
    (h : renameKeyChecks pointer parent key nextKey = .ok (some p)) :
    ∀ tok ∈ splitPointerTotal p, isUnsafePointerKey tok = false := by
  simp only [renameKeyChecks] at h
  repeat' split at h
  all_goals try exact Except.noConfusion h
  all_goals try exact Option.noConfusion (Except.ok.inj h)
  rename_i a he
  cases a
  have hpn := Option.some.inj (Except.ok.inj h)
  rw [← hpn]
  exact ensurePointerSafety_ok_no_unsafe he

/-- Every destination pointer accepted by the rename resolver is free of
reserved inheritance-chain tokens. -/
theorem resolveRenameTargetPointer_ok_safe {q : QueryOracle} {doc : Json}
    {pointer target : String} {tm : RenameTargetMode} {aev : Bool} {p : String}
    (h : resolveRenameTargetPointer q doc pointer target tm aev = .ok (some p)) :
    ∀ tok ∈ splitPointerTotal p, isUnsafePointerKey tok = false := by
  simp only [resolveRenameTargetPointer] at h
  repeat' split at h
  all_goals try exact Except.noConfusion h
  all_goals try exact Option.noConfusion (Except.ok.inj h)
  all_goals exact renameKeyChecks_ok_safe h

/-- C5 (amended): move and rename destinations are fully guarded — any
reserved inheritance-chain token anywhere in a pointer the resolvers
accept is impossible, so such writes are rejected before an operation is
even staged — and a replace (or move-insert) whose *final* token is
reserved and whose parent resolves to an object fails with the
unsafe-pointer error before mutating. A replace whose reserved token is
not in final position is *not* guarded (see the counterexample). -/
theorem C5_unsafe_pointer_guard :
    (∀ (q : QueryOracle) (doc : Json) (target : String) (tm : MoveTargetMode)
        (aev : Bool) (p : String),
        resolveTargetPointer q doc target tm aev = .ok (some p) →
        ∀ tok ∈ splitPointerTotal p, isUnsafePointerKey tok = false) ∧
    (∀ (q : QueryOracle) (doc : Json) (pointer target : String)
        (tm : RenameTargetMode) (aev : Bool) (p : String),
        resolveRenameTargetPointer q doc pointer target tm aev = .ok (some p) →
        ∀ tok ∈ splitPointerTotal p, isUnsafePointerKey tok = false) ∧
    (∀ (doc : Json) (ptr : String) (v : Json) (fields : List (String × Json))
        (key : String),
        getParentContext doc ptr = .ok (some (.obj fields, key)) →
        isUnsafePointerKey key = true →
        replaceAtPointer doc ptr v =
          .error s!"Unsafe pointer segment '{key}' is not allowed") ∧
    (∀ (doc : Json) (ptr : String) (v : Json) (fields : List (String × Json))
        (key : String),
        getParentContext doc ptr = .ok (some (.obj fields, key)) →
        isUnsafePointerKey key = true →
        addAtPointer doc ptr v =
          .error s!"Unsafe pointer segment '{key}' is not allowed") := by
  refine ⟨?_, ?_, ?_, ?_⟩
  · intro q doc target tm aev p h
    exact resolveTargetPointer_ok_safe h
  · intro q doc pointer target tm aev p h
    exact resolveRenameTargetPointer_ok_safe h
  · intro doc ptr v fields key hpc hkey
    simp only [replaceAtPointer, hpc, replaceInParent, assertSafePointerKey, hkey, if_true,
      Bool.false_eq_true, if_false]
  · intro doc ptr v fields key hpc hkey
    simp only [addAtPointer, hpc, addInParent, assertSafePointerKey, hkey, if_true,
      Bool.false_eq_true, if_false]

/-- Witness for C5: a pointer-mode move target `/a/b` is accepted and its
tokens are indeed unreserved, and a replace whose final key is
`__proto__` under an object parent fails with the unsafe-pointer error. -/
theorem C5_unsafe_pointer_guard_witness :
    isUnsafePointerKey "b" = false ∧
      replaceAtPointer (.obj [("p", .obj [("__proto__", .num 0)])])
          "/p/__proto__" (.num 1) =
        .error "Unsafe pointer segment '__proto__' is not allowed" := by
  constructor
  · exact (C5_unsafe_pointer_guard.1
      { pointers := fun _ _ => .ok [], values := fun _ _ => .ok [] }
      .null "/a/b" .pointer false "/a/b" rfl) "b" (by decide)
  · exact (C5_unsafe_pointer_guard.2.2.1
      (.obj [("p", .obj [("__proto__", .num 0)])]) "/p/__proto__" (.num 1)
      [("__proto__", .num 0)] "__proto__" rfl rfl)

/-- Oracle for the C5 counterexample: the matcher selects the pointer
`/__proto__/x` (the document holds `__proto__` as an ordinary own
property, as `JSON.parse` produces). -/
def c5Oracle : QueryOracle :=
  { pointers := fun _ _ => .ok ["/__proto__/x"],
    values := fun _ _ => .ok [] }

/-- C5 counterexample: a replace whose destination pointer *contains* the
reserved token `__proto__` in non-final position succeeds and mutates the
document — no unsafe-pointer error is recorded, the operation is applied,
and the document changes, contradicting the claim for replace
destinations. -/
theorem C5_unsafe_pointer_guard_cx :
    (runTransformer c5Oracle (.obj [("__proto__", .obj [("x", .num 1)])])
          [.replace { id := "c5", matcher := "$..x", allowEmptyMatcher := false,
                      allowEmptyValue := false, disabled := false }
            (.num 2) .auto]).document =
        .obj [("__proto__", .obj [("x", .num 2)])] ∧
      (runTransformer c5Oracle (.obj [("__proto__", .obj [("x", .num 1)])])
          [.replace { id := "c5", matcher := "$..x", allowEmptyMatcher := false,
                      allowEmptyValue := false, disabled := false }
            (.num 2) .auto]).errors = [] ∧
      (runTransformer c5Oracle (.obj [("__proto__", .obj [("x", .num 1)])])
          [.replace { id := "c5", matcher := "$..x", allowEmptyMatcher := false,
                      allowEmptyValue := false, disabled := false }
            (.num 2) .auto]).operations =
        [.replace "/__proto__/x" (.num 2)] := by
  refine ⟨rfl, rfl, rfl⟩

/-! ## C7 — rename semantics relative to the matched pointer's parent. -/

/-- C7: for a rename rule and a matched pointer — renaming the document
root is an error; renaming an array element is an error; a resolved key
equal to the existing key (when not reserved, which the source checks
first) is a no-op skip, not an error; a reserved resolved key is
rejected; a key owned by a sibling is a collision error; and on success
the staged operation is tagged `rename` with a move summary whose
destination is the parent pointer with the new key appended. -/
theorem C7_rename_semantics (q : QueryOracle) (doc : Json) (ptr : String) :
    (∀ (target : String) (tm : RenameTargetMode) (aev : Bool),
        getParentContext doc ptr = .ok none →
        resolveRenameTargetPointer q doc ptr target tm aev =
          .error "Cannot rename the root document") ∧
    (∀ (target : String) (tm : RenameTargetMode) (aev : Bool)
        (xs : List Json) (key : String),
        getParentContext doc ptr = .ok (some (.arr xs, key)) →
        resolveRenameTargetPointer q doc ptr target tm aev =
          .error "Rename operations can only target object properties") ∧
    (∀ (target : String) (aev : Bool) (fields : List (String × Json))
        (key : String),
        getParentContext doc ptr = .ok (some (.obj fields, key)) →
        (trimString target == "") = false →
        coerceRenameKey (.str (trimString target)) = .ok key →
        isUnsafePointerKey key = false →
        resolveRenameTargetPointer q doc ptr target .literal aev = .ok none) ∧
    (∀ (parent : Json) (key nextKey : String),
        isUnsafePointerKey nextKey = true →
        renameKeyChecks ptr parent key nextKey =
          .error s!"Unsafe pointer segment '{nextKey}' is not allowed") ∧
    (∀ (fields : List (String × Json)) (key nextKey : String),
        isUnsafePointerKey nextKey = false →
        ¬nextKey = key →
        hasOwnField fields nextKey = true →
        renameKeyChecks ptr (.obj fields) key nextKey =
          .error s!"Property '{nextKey}' already exists on the target object") ∧
    (∀ (fields : List (String × Json)) (key nextKey : String)
        (toks : List String),
        isUnsafePointerKey nextKey = false →
        ¬nextKey = key →
        hasOwnField fields nextKey = false →
        splitPointer ptr = .ok toks →
        ensurePointerSafety (joinPointer (toks.dropLast ++ [nextKey])) = .ok () →
        renameKeyChecks ptr (.obj fields) key nextKey =
          .ok (some (joinPointer (toks.dropLast ++ [nextKey])))) ∧
    (∀ (i mi : Nat) (st : StageState) (base : RuleBase) (target : String)
        (tm : RenameTargetMode),
        resolveRenameTargetPointer q doc ptr target tm base.allowEmptyValue =
          .ok none →
        stageMatch q doc i (.rename base target tm) mi ptr st =
          { st with suppressNoOpWarning := true }) ∧
    (∀ (i mi : Nat) (st : StageState) (base : RuleBase) (target t : String)
        (tm : RenameTargetMode),
        resolveRenameTargetPointer q doc ptr target tm base.allowEmptyValue =
          .ok (some t) →
        stageMatch q doc i (.rename base target tm) mi ptr st =
          { st with
            operations :=
              st.operations ++
                [{ matchIndex := mi, pointer := ptr, op := .rename,
                   summary := .move t ptr, status := .skipped,
                   message := none }] }) := by
  refine ⟨?_, ?_, ?_, ?_, ?_, ?_, ?_, ?_⟩
  · intro target tm aev hpc
    simp only [resolveRenameTargetPointer, hpc]
  · intro target tm aev xs key hpc
    simp only [resolveRenameTargetPointer, hpc, Bool.false_eq_true, if_false, if_true]
  · intro target aev fields key hpc htne hck hunsafe
    simp only [resolveRenameTargetPointer, hpc, htne, Bool.false_eq_true, if_false, hck,
      renameKeyChecks, assertSafePointerKey, hunsafe, if_true]
  · intro parent key nextKey hkey
    simp only [renameKeyChecks, assertSafePointerKey, hkey, if_true]
  · intro fields key nextKey hunsafe hne hown
    simp only [renameKeyChecks, assertSafePointerKey, hunsafe, Bool.false_eq_true, if_false,
      hne, hown, if_true]
  · intro fields key nextKey toks hunsafe hne hown hsplit hens
    simp only [renameKeyChecks, assertSafePointerKey, hunsafe, Bool.false_eq_true, if_false,
      hne, hown, hsplit, hens, if_true]
  · intro i mi st base target tm hres
    simp only [stageMatch, hres]
  · intro i mi st base target t tm hres
    simp only [stageMatch, hres]

/-- Witness for C7: over the parent object `{a: 1, b: 2}` at matched
pointer `/a` — renaming `a` to `a` is a silent skip, renaming `a` to `b`
is a collision error, renaming `a` to `__proto__` is rejected as unsafe,
and renaming `a` to `c` succeeds with destination `/c`. -/
theorem C7_rename_semantics_witness :
    resolveRenameTargetPointer
        { pointers := fun _ _ => .ok [], values := fun _ _ => .ok [] }
        (.obj [("a", .num 1), ("b", .num 2)]) "/a" "a" .literal false =
      .ok none ∧
    renameKeyChecks "/a" (.obj [("a", .num 1), ("b", .num 2)]) "a" "b" =
      .error "Property 'b' already exists on the target object" ∧
    renameKeyChecks "/a" (.obj [("a", .num 1), ("b", .num 2)]) "a" "__proto__" =
      .error "Unsafe pointer segment '__proto__' is not allowed" ∧
    renameKeyChecks "/a" (.obj [("a", .num 1), ("b", .num 2)]) "a" "c" =
      .ok (some "/c") := by
  have h := C7_rename_semantics
    { pointers := fun _ _ => .ok [], values := fun _ _ => .ok [] }
    (.obj [("a", .num 1), ("b", .num 2)]) "/a"
  refine ⟨?_, ?_, ?_, ?_⟩
  · exact h.2.2.1 "a" false [("a", .num 1), ("b", .num 2)] "a" rfl rfl rfl rfl
  · exact h.2.2.2.2.1 [("a", .num 1), ("b", .num 2)] "a" "b" rfl
      (by decide) rfl
  · have hu := h.2.2.2.1 (.obj [("a", .num 1), ("b", .num 2)]) "a" "__proto__" rfl
    rw [hu]
    rfl
  · have hs := h.2.2.2.2.2.1 [("a", .num 1), ("b", .num 2)] "a" "c" ["a"] rfl
      (by decide) rfl rfl rfl
    rw [hs]
    rfl

/-! ## C8 — move targets that resolve to zero pointers. -/

/-- C8 (amended): for a move rule whose target query returns zero
pointers — with `allowEmptyValue` set the match is silently skipped (no
operation staged, no error); otherwise the engine lowers a "simple" query
syntactically into a pointer and uses it as the destination, and records
the arity error naming the expression and the count 0 when the lowering
fails. One asymmetry survives a corner case: the auto mode tests the
lowered pointer for truthiness instead of non-null, so a lowering that
produces the empty (root) pointer is treated as a failure in auto mode,
while the explicit jsonpath mode accepts it. -/
theorem C8_move_zero_results (q : QueryOracle) (doc : Json) :
    (∀ (target : String),
        (trimString target == "") = false →
        q.pointers doc (trimString target) = .ok [] →
        resolveTargetPointer q doc target .jsonpath true = .ok none) ∧
    (∀ (target fp : String),
        (trimString target == "") = false →
        q.pointers doc (trimString target) = .ok [] →
        simpleJsonPathToPointer (trimString target) = some fp →
        ensurePointerSafety (normalizePointer fp) = .ok () →
        resolveTargetPointer q doc target .jsonpath false =
          .ok (some (normalizePointer fp))) ∧
    (∀ (target : String),
        (trimString target == "") = false →
        q.pointers doc (trimString target) = .ok [] →
        simpleJsonPathToPointer (trimString target) = none →
        resolveTargetPointer q doc target .jsonpath false =
          .error s!"Expected exactly one target pointer for JSONPath '{target}', received 0") ∧
    (∀ (target : String),
        (trimString target == "") = false →
        startsWithStr (trimString target) "/" = false →
        startsWithStr (trimString target) "$" = true →
        q.pointers doc (trimString target) = .ok [] →
        resolveTargetPointer q doc target .auto true = .ok none) ∧
    (∀ (target fp : String),
        (trimString target == "") = false →
        startsWithStr (trimString target) "/" = false →
        startsWithStr (trimString target) "$" = true →
        q.pointers doc (trimString target) = .ok [] →
        simpleJsonPathToPointer (trimString target) = some fp →
        fp ≠ "" →
        ensurePointerSafety (normalizePointer fp) = .ok () →
        resolveTargetPointer q doc target .auto false =
          .ok (some (normalizePointer fp))) ∧
    (∀ (target : String),
        (trimString target == "") = false →
        startsWithStr (trimString target) "/" = false →
        startsWithStr (trimString target) "$" = true →
        q.pointers doc (trimString target) = .ok [] →
        simpleJsonPathToPointer (trimString target) = none →
        resolveTargetPointer q doc target .auto false =
          .error s!"Expected exactly one target pointer for JSONPath '{target}', received 0") ∧
    (∀ (target : String),
        (trimString target == "") = false →
        startsWithStr (trimString target) "/" = false →
        startsWithStr (trimString target) "$" = true →
        q.pointers doc (trimString target) = .ok [] →
        simpleJsonPathToPointer (trimString target) = some "" →
        resolveTargetPointer q doc target .auto false =
          .error s!"Expected exactly one target pointer for JSONPath '{target}', received 0") ∧
    (∀ (i mi : Nat) (st : StageState) (base : RuleBase) (target : String)
        (tm : MoveTargetMode) (ptr : String),
        resolveTargetPointer q doc target tm base.allowEmptyValue = .ok none →
        stageMatch q doc i (.move base target tm) mi ptr st =
          { st with suppressNoOpWarning := true }) := by
  refine ⟨?_, ?_, ?_, ?_, ?_, ?_, ?_, ?_⟩
  · intro target htne hq
    simp only [resolveTargetPointer, htne, Bool.false_eq_true, if_false, hq, if_true]
  · intro target fp htne hq hfb hens
    simp only [resolveTargetPointer, htne, Bool.false_eq_true, if_false, hq, hfb,
      acceptTargetPointer, hens]
  · intro target htne hq hfb
    simp only [resolveTargetPointer, htne, Bool.false_eq_true, if_false, hq, hfb]
  · intro target htne hslash hdollar hq
    simp only [resolveTargetPointer, htne, Bool.false_eq_true, if_false, hslash, hdollar,
      if_true, hq]
  · intro target fp htne hslash hdollar hq hfb hfpne hens
    simp only [resolveTargetPointer, htne, Bool.false_eq_true, if_false, hslash, hdollar,
      if_true, hq, hfb]
    rw [if_pos hfpne]
    simp only [acceptTargetPointer, hens]
  · intro target htne hslash hdollar hq hfb
    simp only [resolveTargetPointer, htne, Bool.false_eq_true, if_false, hslash, hdollar,
      if_true, hq, hfb]
  · intro target htne hslash hdollar hq hfb
    simp only [resolveTargetPointer, htne, Bool.false_eq_true, if_false, hslash, hdollar,
      if_true, hq, hfb]
    rw [if_neg (by simp)]
  · intro i mi st base target tm ptr hres
    simp only [stageMatch, hres]

/-- Witness for C8: with a query oracle that finds nothing, the jsonpath
move target `$.a.b` lowers to the pointer `/a/b`, an unlowerable filter
query records the arity error naming the expression and count 0, and
with `allowEmptyValue` the zero-result move is a silent skip. -/
theorem C8_move_zero_results_witness :
    resolveTargetPointer
        { pointers := fun _ _ => .ok [], values := fun _ _ => .ok [] }
        (.obj []) "$.a.b" .jsonpath false = .ok (some "/a/b") ∧
    resolveTargetPointer
        { pointers := fun _ _ => .ok [], values := fun _ _ => .ok [] }
        (.obj []) "$.items[?(@.x)]" .jsonpath false =
      .error "Expected exactly one target pointer for JSONPath '$.items[?(@.x)]', received 0" ∧
    resolveTargetPointer
        { pointers := fun _ _ => .ok [], values := fun _ _ => .ok [] }
        (.obj []) "$.a.b" .jsonpath true = .ok none := by
  have h := C8_move_zero_results
    { pointers := fun _ _ => .ok [], values := fun _ _ => .ok [] } (.obj [])
  refine ⟨?_, ?_, ?_⟩
  · have h2 := h.2.1 "$.a.b" "/a/b" rfl rfl rfl rfl
    rw [h2]
    rfl
  · have h3 := h.2.2.1 "$.items[?(@.x)]" rfl rfl rfl
    rw [h3]
    rfl
  · exact h.1 "$.a.b" rfl rfl

/-- Oracle for the C8 counterexample: every pointer query returns zero
results. -/
def c8Oracle : QueryOracle :=
  { pointers := fun _ _ => .ok [], values := fun _ _ => .ok [] }

/-- C8 counterexample: in auto mode with target `$` (whose lowering
*succeeds*, producing the root pointer `""`), a zero-result query does not
use the lowered pointer as the destination — the truthiness check rejects
the empty string and the arity error is raised instead, contradicting the
claim's "uses that pointer as the destination" once lowering succeeds. -/
theorem C8_move_zero_results_cx :
    simpleJsonPathToPointer "$" = some "" ∧
      resolveTargetPointer c8Oracle (.obj []) "$" .auto false =
        .error "Expected exactly one target pointer for JSONPath '$', received 0" ∧
      resolveTargetPointer c8Oracle (.obj []) "$" .jsonpath false =
        .ok (some "") := by
  refine ⟨rfl, rfl, rfl⟩

/-! ## C9 — strict sequencing: later rules observe earlier mutations. -/

/-- The document produced by the rule loop depends on the accumulator only
through its document component. -/
theorem runRulesFrom_document_only (q : QueryOracle) (rules : List Rule) :
    ∀ (i : Nat) (acc acc' : RunAcc), acc.document = acc'.document →
      (runRulesFrom q i acc rules).document =
        (runRulesFrom q i acc' rules).document := by
  induction rules with
  | nil => intro i acc acc' h; simpa [runRulesFrom] using h
  | cons r rest ih =>
    intro i acc acc' h
    simp only [runRulesFrom]
    rw [h]
    exact ih (i + 1) _ _ rfl

/-- Splitting the rule list: the suffix runs on the state the prefix
produced, with the rule indices continuing where the prefix stopped. -/
theorem runRulesFrom_append (q : QueryOracle) (rs1 rs2 : List Rule) :
    ∀ (i : Nat) (acc : RunAcc),
      runRulesFrom q i acc (rs1 ++ rs2) =
        runRulesFrom q (i + rs1.length) (runRulesFrom q i acc rs1) rs2 := by
  induction rs1 with
  | nil => intro i acc; simp [runRulesFrom]
  | cons r rest ih =>
    intro i acc
    have hlen : i + (r :: rest).length = (i + 1) + rest.length := by
      simp only [List.length_cons]
      omega
    rw [hlen, List.cons_append]
    simp only [runRulesFrom]
    exact ih (i + 1) _

/-- Oracle for the C9 run: matchers `$.a` / `$.b` locate those keys, and
the value query `$.a` reads the *current* value at `/a` of the document it
is handed. -/
def c9Oracle : QueryOracle :=
  { pointers := fun _ e =>
      if e == "$.a" then .ok ["/a"]
      else if e == "$.b" then .ok ["/b"]
      else .ok [],
    values := fun d e =>
      if e == "$.a" then
        match getValueAtPointer d "/a" with
        | .ok v => .ok [v]
        | .error _ => .ok []
      else .ok [] }

/-- First C9 rule: replace `/a` by the literal 5. -/
def c9Rule1 : Rule :=
  .replace { id := "w1", matcher := "$.a", allowEmptyMatcher := false,
             allowEmptyValue := false, disabled := false }
    (.num 5) .auto

/-- Second C9 rule: replace `/b` by the value the query `$.a` reads. -/
def c9Rule2 : Rule :=
  .replace { id := "w2", matcher := "$.b", allowEmptyMatcher := false,
             allowEmptyValue := false, disabled := false }
    (.str "$.a") .auto

/-- C9: rules are consumed strictly in input order — the run of
`rs1 ++ rs2` applies all of `rs1` (staged operations included) before any
matcher or value query of `rs2` runs, which therefore observe the document
`rs1` produced; and concretely, a replace rule whose value query reads
`/a` after an earlier rule wrote 5 there stores the post-mutation 5, not
the input's 1. -/
theorem C9_sequential_visibility :
    (∀ (q : QueryOracle) (input : Json) (rs1 rs2 : List Rule),
        (runTransformer q input (rs1 ++ rs2)).document =
          (runRulesFrom q rs1.length
              { document := (runTransformer q input rs1).document,
                diagnostics := [], operations := [], errors := [],
                warnings := [] }
              rs2).document) ∧
      (runTransformer c9Oracle (.obj [("a", .num 1), ("b", .num 2)])
          [c9Rule1, c9Rule2]).document =
        .obj [("a", .num 5), ("b", .num 5)] := by
  constructor
  · intro q input rs1 rs2
    simp only [runTransformer, runRulesFrom_append, Nat.zero_add]
    exact runRulesFrom_document_only q rs2 rs1.length _ _ rfl
  · rfl

/-! ## C10 — empty or whitespace-only matchers. -/

/-- C10 (amended): an enabled rule whose matcher trims to the empty string
produces the quiet diagnostic — `matchCount 0`, no operations, no errors,
no warnings (the no-effect warning is suppressed even without
`allowEmptyMatcher`, and the matcher evaluator's empty-matcher error is
never raised) — unless the rule is a replace rule with an `undefined`
value and `allowEmptyValue` unset, which still records the
"replacement value is required" error. -/
theorem C10_empty_matcher (q : QueryOracle) (i : Nat) (doc : Json)
    (rule : Rule)
    (hdis : rule.base.disabled = false)
    (htm : (trimString rule.base.matcher == "") = true)
    (hval : replaceValueRequired rule = false) :
    applyRule q i doc rule =
      (doc,
       { ruleId := rule.base.id, matcher := rule.base.matcher,
         op := rule.opTag, matchCount := 0, operations := [], errors := [],
         warnings := [] },
       []) := by
  cases rule with
  | remove base =>
    simp only [applyRule, Rule.base] at *
    simp [hdis, htm, reorderRemoveOperations, buildGroups, Rule.opTag]
  | replace base value vm =>
    cases value with
    | undef =>
      simp only [replaceValueRequired, Bool.not_eq_false'] at hval
      simp only [applyRule, Rule.base] at *
      simp [hdis, htm, hval, reorderRemoveOperations, buildGroups, Rule.opTag]
    | null =>
      simp only [applyRule, Rule.base] at *
      simp [hdis, htm, reorderRemoveOperations, buildGroups, Rule.opTag]
    | bool b =>
      simp only [applyRule, Rule.base] at *
      simp [hdis, htm, reorderRemoveOperations, buildGroups, Rule.opTag]
    | num n =>
      simp only [applyRule, Rule.base] at *
      simp [hdis, htm, reorderRemoveOperations, buildGroups, Rule.opTag]
    | str s =>
      simp only [applyRule, Rule.base] at *
      simp [hdis, htm, reorderRemoveOperations, buildGroups, Rule.opTag]
    | arr xs =>
      simp only [applyRule, Rule.base] at *
      simp [hdis, htm, reorderRemoveOperations, buildGroups, Rule.opTag]
    | obj fs =>
      simp only [applyRule, Rule.base] at *
      simp [hdis, htm, reorderRemoveOperations, buildGroups, Rule.opTag]
  | move base target tm =>
    simp only [applyRule, Rule.base] at *
    simp [hdis, htm, reorderRemoveOperations, buildGroups, Rule.opTag]
  | rename base target tm =>
    simp only [applyRule, Rule.base] at *
    simp [hdis, htm, reorderRemoveOperations, buildGroups, Rule.opTag]

/-- Witness for C10: a whitespace-only matcher on a remove rule with
`allowEmptyMatcher = false` yields the quiet diagnostic. -/
theorem C10_empty_matcher_witness :
    (applyRule
        { pointers := fun _ _ => .ok ["/a"], values := fun _ _ => .ok [] }
        0 (.obj [("a", .num 1)])
        (.remove { id := "w10", matcher := "  ", allowEmptyMatcher := false,
                   allowEmptyValue := false, disabled := false })).2.1.warnings = [] ∧
      (applyRule
          { pointers := fun _ _ => .ok ["/a"], values := fun _ _ => .ok [] }
          0 (.obj [("a", .num 1)])
          (.remove { id := "w10", matcher := "  ", allowEmptyMatcher := false,
                     allowEmptyValue := false, disabled := false })).2.1.errors = [] := by
  have h := C10_empty_matcher
    { pointers := fun _ _ => .ok ["/a"], values := fun _ _ => .ok [] }
    0 (.obj [("a", .num 1)])
    (.remove { id := "w10", matcher := "  ", allowEmptyMatcher := false,
               allowEmptyValue := false, disabled := false })
    rfl rfl rfl
  rw [h]
  exact ⟨rfl, rfl⟩

/-- Oracle for the C10 counterexample (never reached: the matcher is
whitespace-only). -/
def c10Oracle : QueryOracle :=
  { pointers := fun _ _ => .ok [], values := fun _ _ => .ok [] }

/-- C10 counterexample: an enabled replace rule with whitespace-only
matcher, `undefined` value and `allowEmptyValue = false` records the
value-required error, so "zero errors" does not hold for every enabled
rule with an empty matcher. -/
theorem C10_empty_matcher_cx :
    (runTransformer c10Oracle (.obj [("a", .num 1)])
          [.replace { id := "c10", matcher := " ", allowEmptyMatcher := false,
                      allowEmptyValue := false, disabled := false }
            .undef .auto]).errors =
      ["Rule 1 replace value error: replacement value is required"] := by
  rfl

/-! ## C1 — the same-parent removal reordering.

The source's `result.indexOf(operation)` compares by object identity; the
diagnostics a rule stages are pairwise structurally distinct (their
`matchIndex` fields differ), so structural distinctness
(`pairwiseDistinctOps` below) is the hypothesis under which the embedding's
value-based search coincides with the source's identity-based one. -/

/-- All elements pairwise distinct under `RuleOperationDiagnostic.beq`
(both orders). -/
def pairwiseDistinctOps : List RuleOperationDiagnostic → Bool
  | [] => true
  | o :: rest =>
    rest.all (fun x => !(RuleOperationDiagnostic.beq o x)
        && !(RuleOperationDiagnostic.beq x o))
      && pairwiseDistinctOps rest

/-- The operations of one reordering group: the remove operations whose
path has parent pointer `p`, in staging order. -/
def groupOf (p : String) (ops : List RuleOperationDiagnostic) :
    List RuleOperationDiagnostic :=
  ops.filter (fun o => removeParentKey o == some p)

/-- The group of parent `p` together with each member's position, counting
from `i`. -/
def groupIdx (p : String) : List RuleOperationDiagnostic → Nat →
    List (Nat × RuleOperationDiagnostic)
  | [], _ => []
  | o :: rest, i =>
    if removeParentKey o == some p then (i, o) :: groupIdx p rest (i + 1)
    else groupIdx p rest (i + 1)

/-- The array index a remove operation's final path token parses to. -/
def removeIdxKey (o : RuleOperationDiagnostic) : Option Int :=
  match o.summary with
  | .remove path => ((splitPointerTotal path).getLast?).bind parseIntToken
  | _ => none

/-- How many operations with parent `p` sit strictly before position `i`. -/
def rankBefore (p : String) (ops : List RuleOperationDiagnostic) (i : Nat) :
    Nat :=
  (groupOf p (ops.take i)).length

/-- The comparator the reordering sorts each group by. -/
def cmpOps (a b : RuleOperationDiagnostic) : Int :=
  compareRemoveOrder a.summary b.summary

/-- A grouped operation is a remove operation. -/
theorem removeParentKey_some_summary {o : RuleOperationDiagnostic}
    {p : String} (h : removeParentKey o = some p) :
    ∃ path, o.summary = .remove path ∧
      p = joinPointer (splitPointerTotal path).dropLast := by
  unfold removeParentKey at h
  cases hs : o.summary with
  | remove path =>
    rw [hs] at h
    injection h with h
    exact ⟨path, rfl, h.symm⟩
  | replace a b => rw [hs] at h; cases h
  | move a b => rw [hs] at h; cases h

/-- `beq` is reflexive on remove operations (no JSON payload involved). -/
theorem opBeq_refl_remove {o : RuleOperationDiagnostic} {path : String}
    (h : o.summary = .remove path) : o.beq o = true := by
  cases o with
  | mk mi ptr op summary status msg =>
    simp only at h
    subst h
    simp [RuleOperationDiagnostic.beq, JsonPatchOperation.beq]

/-- `beq` against a remove operation is sound: a hit is a structural
equality (every compared field has a lawful `BEq`). -/
theorem opBeq_eq_of_beq_remove {x o : RuleOperationDiagnostic} {path : String}
    (ho : o.summary = .remove path) (h : x.beq o = true) : x = o := by
  cases x with
  | mk xmi xptr xop xsum xst xmsg =>
    cases o with
    | mk omi optr oop osum ost omsg =>
      simp only at ho
      subst ho
      simp only [RuleOperationDiagnostic.beq, Bool.and_eq_true] at h
      obtain ⟨⟨⟨⟨⟨h1, h2⟩, h3⟩, h4⟩, h5⟩, h6⟩ := h
      cases xsum with
      | remove xpath =>
        simp only [JsonPatchOperation.beq] at h4
        rw [show xmi = omi from eq_of_beq h1,
          show xptr = optr from eq_of_beq h2,
          show xop = oop from eq_of_beq h3,
          show xpath = path from eq_of_beq h4,
          show xst = ost from eq_of_beq h5,
          show xmsg = omsg from eq_of_beq h6]
      | replace a b => simp [JsonPatchOperation.beq] at h4
      | move a b => simp [JsonPatchOperation.beq] at h4

/-- Extraction from `pairwiseDistinctOps`: distinct positions never
compare equal. -/
theorem pairwiseDistinctOps_get {ops : List RuleOperationDiagnostic}
    (hd : pairwiseDistinctOps ops = true) :
    ∀ i j x y, i ≠ j → ops.get? i = some x → ops.get? j = some y →
      RuleOperationDiagnostic.beq x y = false := by
  induction ops with
  | nil => intro i j x y _ hx _; simp at hx
  | cons o rest ih =>
    simp only [pairwiseDistinctOps, Bool.and_eq_true, List.all_eq_true] at hd
    obtain ⟨hall, hrest⟩ := hd
    intro i j x y hij hx hy
    cases i with
    | zero =>
      cases j with
      | zero => exact absurd rfl hij
      | succ j' =>
        simp only [List.get?_cons_zero] at hx
        simp only [List.get?_cons_succ] at hy
        injection hx with hx
        subst hx
        have hmem : y ∈ rest := List.get?_mem hy
        have := hall y hmem
        simp only [Bool.and_eq_true, Bool.not_eq_true'] at this
        exact this.1
    | succ i' =>
      cases j with
      | zero =>
        simp only [List.get?_cons_succ] at hx
        simp only [List.get?_cons_zero] at hy
        injection hy with hy
        subst hy
        have hmem : x ∈ rest := List.get?_mem hx
        have := hall x hmem
        simp only [Bool.and_eq_true, Bool.not_eq_true'] at this
        exact this.2
      | succ j' =>
        simp only [List.get?_cons_succ] at hx hy
        exact ih hrest i' j' x y (fun he => hij (by rw [he])) hx hy

/-- `findIdx?` finds exactly the position whose predecessors all fail the
predicate. -/
theorem findIdx?_eq_some_of (f : RuleOperationDiagnostic → Bool)
    {l : List RuleOperationDiagnostic} :
    ∀ {j x}, l.get? j = some x → f x = true →
      (∀ j' x', j' < j → l.get? j' = some x' → f x' = false) →
      l.findIdx? f = some j := by
  induction l with
  | nil => intro j x hx; simp at hx
  | cons a rest ih =>
    intro j x hx hpx hbefore
    cases j with
    | zero =>
      simp only [List.get?_cons_zero] at hx
      injection hx with hx
      subst hx
      simp [List.findIdx?, hpx]
    | succ j' =>
      simp only [List.get?_cons_succ] at hx
      have ha : f a = false :=
        hbefore 0 a (Nat.succ_pos j') rfl
      have := ih hx hpx (fun j'' x' hlt hg =>
        hbefore (j'' + 1) x' (Nat.succ_lt_succ hlt) hg)
      simp [List.findIdx?, ha, this]

/-- `insertByCmp` produces a permutation of consing. -/
theorem insertByCmp_perm {α : Type} (cmp : α → α → Int) (a : α) (l : List α) :
    List.Perm (insertByCmp cmp a l) (a :: l) := by
  induction l with
  | nil => simp [insertByCmp]
  | cons b rest ih =>
    unfold insertByCmp
    by_cases h : cmp a b ≤ 0
    · rw [if_pos h]
    · rw [if_neg h]
      exact (List.Perm.cons b ih).trans (List.Perm.swap a b rest)

/-- `sortByCmp` permutes its input. -/
theorem sortByCmp_perm {α : Type} (cmp : α → α → Int) (l : List α) :
    List.Perm (sortByCmp cmp l) l := by
  induction l with
  | nil => simp [sortByCmp]
  | cons a rest ih =>
    exact (insertByCmp_perm cmp a (sortByCmp cmp rest)).trans
      (List.Perm.cons a ih)

/-- Membership is preserved by `sortByCmp`. -/
theorem mem_sortByCmp {α : Type} {cmp : α → α → Int} {l : List α} {x : α} :
    x ∈ sortByCmp cmp l ↔ x ∈ l :=
  (sortByCmp_perm cmp l).mem_iff

/-- Length is preserved by `sortByCmp`. -/
theorem length_sortByCmp {α : Type} (cmp : α → α → Int) (l : List α) :
    (sortByCmp cmp l).length = l.length :=
  (sortByCmp_perm cmp l).length_eq

/-- Sorting an already ascending position list is the identity (the
source re-sorts the collected positions, which are found in ascending
order). -/
theorem sortByCmp_natAsc_sorted {l : List Nat}
    (h : List.Pairwise (· < ·) l) : sortByCmp natCmpAsc l = l := by
  induction l with
  | nil => rfl
  | cons a rest ih =>
    rw [List.pairwise_cons] at h
    unfold sortByCmp
    rw [ih h.2]
    cases rest with
    | nil => rfl
    | cons b rest' =>
      unfold insertByCmp
      rw [if_pos]
      have := h.1 b (List.mem_cons_self b rest')
      unfold natCmpAsc
      omega

/-- Membership in an insertion. -/
theorem mem_insertByCmp {α : Type} {cmp : α → α → Int} {a x : α} {l : List α} :
    x ∈ insertByCmp cmp a l ↔ x = a ∨ x ∈ l := by
  rw [(insertByCmp_perm cmp a l).mem_iff]
  simp

/-- Inserting with a comparator that is linear in a numeric key keeps the
list sorted by non-increasing key. -/
theorem insertByCmp_pairwise_key {α : Type} {cmp : α → α → Int}
    {key : α → Int} {a : α} {l : List α}
    (hcmp : ∀ x, (x = a ∨ x ∈ l) → ∀ y, (y = a ∨ y ∈ l) →
      cmp x y = key y - key x)
    (hl : List.Pairwise (fun x y => key y ≤ key x) l) :
    List.Pairwise (fun x y => key y ≤ key x) (insertByCmp cmp a l) := by
  induction l with
  | nil => simp [insertByCmp]
  | cons b rest ih =>
    rw [List.pairwise_cons] at hl
    unfold insertByCmp
    by_cases hc : cmp a b ≤ 0
    · rw [if_pos hc]
      have hab : key b ≤ key a := by
        have := hcmp a (Or.inl rfl) b (Or.inr (List.mem_cons_self b rest))
        omega
      rw [List.pairwise_cons]
      refine ⟨?_, List.pairwise_cons.mpr hl⟩
      intro y hy
      cases hy with
      | head => exact hab
      | tail _ hy' => exact le_trans (hl.1 y hy') hab
    · rw [if_neg hc]
      have hba : key a ≤ key b := by
        have := hcmp a (Or.inl rfl) b (Or.inr (List.mem_cons_self b rest))
        omega
      rw [List.pairwise_cons]
      constructor
      · intro y hy
        rw [mem_insertByCmp] at hy
        cases hy with
        | inl hya => subst hya; exact hba
        | inr hy' => exact hl.1 y hy'
      · exact ih
          (fun x hx y hy =>
            hcmp x (hx.imp_right (List.mem_cons_of_mem b))
              y (hy.imp_right (List.mem_cons_of_mem b)))
          hl.2

/-- `sortByCmp` with a key-linear comparator sorts by non-increasing
key — for `compareRemoveOrder` on one group of numeric array indices this
is exactly "highest index first". -/
theorem sortByCmp_pairwise_key {α : Type} {cmp : α → α → Int}
    {key : α → Int} {l : List α}
    (hcmp : ∀ x ∈ l, ∀ y ∈ l, cmp x y = key y - key x) :
    List.Pairwise (fun x y => key y ≤ key x) (sortByCmp cmp l) := by
  induction l with
  | nil => simp [sortByCmp]
  | cons a rest ih =>
    unfold sortByCmp
    refine insertByCmp_pairwise_key ?_ (ih ?_)
    · intro x hx y hy
      have hmx : x ∈ a :: rest := by
        cases hx with
        | inl h => rw [h]; exact List.mem_cons_self a rest
        | inr h => exact List.mem_cons_of_mem a (mem_sortByCmp.mp h)
      have hmy : y ∈ a :: rest := by
        cases hy with
        | inl h => rw [h]; exact List.mem_cons_self a rest
        | inr h => exact List.mem_cons_of_mem a (mem_sortByCmp.mp h)
      exact hcmp x hmx y hmy
    · intro x hx y hy
      exact hcmp x (List.mem_cons_of_mem a hx) y (List.mem_cons_of_mem a hy)

/-- On two remove operations of the same parent group with numeric final
tokens, the comparator is the key difference `kb - ka`. -/
theorem cmpOps_numeric {x y : RuleOperationDiagnostic} {p : String}
    (hx : removeParentKey x = some p) (hy : removeParentKey y = some p)
    {kx ky : Int} (hkx : removeIdxKey x = some kx)
    (hky : removeIdxKey y = some ky) : cmpOps x y = ky - kx := by
  obtain ⟨px, hpx, hpeq⟩ := removeParentKey_some_summary hx
  obtain ⟨py, hpy, hpeq'⟩ := removeParentKey_some_summary hy
  simp only [removeIdxKey, hpx] at hkx
  simp only [removeIdxKey, hpy] at hky
  cases hlx : (splitPointerTotal px).getLast? with
  | none => rw [hlx] at hkx; cases hkx
  | some tx =>
    rw [hlx] at hkx
    simp only [Option.some_bind] at hkx
    cases hly : (splitPointerTotal py).getLast? with
    | none => rw [hly] at hky; cases hky
    | some ty =>
      rw [hly] at hky
      simp only [Option.some_bind] at hky
      unfold cmpOps compareRemoveOrder
      rw [hpx, hpy]
      simp only [← hpeq, ← hpeq', ne_eq, not_true_eq_false, if_false, hlx, hly,
        hkx, hky]

/-- The keys of the grouping map, in insertion order. -/
def keysOf (gs : List (String × List RuleOperationDiagnostic)) : List String :=
  gs.map (·.1)

/-- Assoc-list lookup in the grouping map. -/
def findGroup :
    List (String × List RuleOperationDiagnostic) → String →
      Option (List RuleOperationDiagnostic)
  | [], _ => none
  | (q, g) :: rest, p => if q = p then some g else findGroup rest p

/-- Adding to a group appends to its entry (creating it if fresh). -/
theorem findGroup_addToGroup_same (gs : List (String × List RuleOperationDiagnostic))
    (p : String) (o : RuleOperationDiagnostic) :
    findGroup (addToGroup gs p o) p = some ((findGroup gs p).getD [] ++ [o]) := by
  induction gs with
  | nil => simp [addToGroup, findGroup]
  | cons pg rest ih =>
    obtain ⟨q, g⟩ := pg
    unfold addToGroup
    by_cases h : q = p
    · rw [if_pos h]
      simp [findGroup, h]
    · rw [if_neg h]
      simp only [findGroup, h, if_false]
      exact ih

/-- Adding to one group leaves the other entries alone. -/
theorem findGroup_addToGroup_other
    (gs : List (String × List RuleOperationDiagnostic)) {p : String}
    (o : RuleOperationDiagnostic) {r : String} (hrp : r ≠ p) :
    findGroup (addToGroup gs p o) r = findGroup gs r := by
  induction gs with
  | nil =>
    simp only [addToGroup, findGroup]
    rw [if_neg (fun h => hrp h.symm)]
  | cons pg rest ih =>
    obtain ⟨q, g⟩ := pg
    unfold addToGroup
    by_cases h : q = p
    · rw [if_pos h]
      simp only [findGroup]
      rw [if_neg (fun hqr => hrp (h ▸ hqr).symm),
        if_neg (fun hqr => hrp (h ▸ hqr).symm)]
    · rw [if_neg h]
      simp only [findGroup]
      by_cases hqr : q = r
      · rw [if_pos hqr, if_pos hqr]
      · rw [if_neg hqr, if_neg hqr]
        exact ih

/-- Lookup failure is absence from the keys. -/
theorem findGroup_eq_none_iff
    (gs : List (String × List RuleOperationDiagnostic)) (p : String) :
    findGroup gs p = none ↔ p ∉ keysOf gs := by
  induction gs with
  | nil => simp [findGroup, keysOf]
  | cons pg rest ih =>
    obtain ⟨q, g⟩ := pg
    simp only [findGroup, keysOf, List.map_cons, List.mem_cons]
    by_cases h : q = p
    · simp [h]
    · rw [if_neg h, ih]
      simp only [keysOf]
      constructor
      · intro hn hor
        cases hor with
        | inl h1 => exact h h1.symm
        | inr h2 => exact hn h2
      · intro hn hmem
        exact hn (Or.inr hmem)

/-- Adding to a group keeps the keys, or appends the fresh key. -/
theorem keysOf_addToGroup (gs : List (String × List RuleOperationDiagnostic))
    (p : String) (o : RuleOperationDiagnostic) :
    keysOf (addToGroup gs p o) = keysOf gs ∨
      (keysOf (addToGroup gs p o) = keysOf gs ++ [p] ∧ p ∉ keysOf gs) := by
  induction gs with
  | nil =>
    right
    simp [addToGroup, keysOf]
  | cons pg rest ih =>
    obtain ⟨q, g⟩ := pg
    unfold addToGroup
    by_cases h : q = p
    · rw [if_pos h]
      left
      simp [keysOf]
    · rw [if_neg h]
      cases ih with
      | inl he =>
        left
        simp only [keysOf, List.map_cons]
        simp only [keysOf] at he
        rw [he]
      | inr he =>
        right
        constructor
        · simp only [keysOf, List.map_cons, List.cons_append]
          have he1 := he.1
          simp only [keysOf] at he1
          rw [he1]
        · simp only [keysOf, List.map_cons, List.mem_cons]
          intro hor
          cases hor with
          | inl h1 => exact h h1.symm
          | inr h2 => exact he.2 h2

/-- Adding to a group preserves key distinctness. -/
theorem nodup_keysOf_addToGroup
    {gs : List (String × List RuleOperationDiagnostic)} {p : String}
    {o : RuleOperationDiagnostic} (h : (keysOf gs).Nodup) :
    (keysOf (addToGroup gs p o)).Nodup := by
  cases keysOf_addToGroup gs p o with
  | inl he => rw [he]; exact h
  | inr he =>
    rw [he.1]
    refine List.Nodup.append h (List.nodup_singleton p) ?_
    intro a ha hb
    rw [List.mem_singleton] at hb
    subst hb
    exact he.2 ha

/-- In a map with distinct keys, membership determines the lookup. -/
theorem findGroup_of_mem
    {gs : List (String × List RuleOperationDiagnostic)}
    {pg : String × List RuleOperationDiagnostic}
    (hmem : pg ∈ gs) (hnd : (keysOf gs).Nodup) :
    findGroup gs pg.1 = some pg.2 := by
  induction gs with
  | nil => cases hmem
  | cons qg rest ih =>
    obtain ⟨q, g⟩ := qg
    simp only [keysOf, List.map_cons, List.nodup_cons] at hnd
    cases hmem with
    | head => simp [findGroup]
    | tail _ hmem' =>
      unfold findGroup
      by_cases h : q = pg.1
      · exfalso
        apply hnd.1
        rw [h]
        exact List.mem_map_of_mem (·.1) hmem'
      · rw [if_neg h]
        exact ih hmem' hnd.2

/-- The grouping fold, characterized entry by entry. -/
theorem buildGroups_foldl_findGroup (ops : List RuleOperationDiagnostic) :
    ∀ (gs : List (String × List RuleOperationDiagnostic)) (r : String),
      findGroup
          (ops.foldl
            (fun gs o =>
              match removeParentKey o with
              | none => gs
              | some p => addToGroup gs p o)
            gs) r =
        match findGroup gs r with
        | some g => some (g ++ groupOf r ops)
        | none =>
          if (groupOf r ops).isEmpty then none
          else some (groupOf r ops) := by
  induction ops with
  | nil =>
    intro gs r
    simp only [List.foldl_nil, groupOf, List.filter_nil]
    cases findGroup gs r <;> simp
  | cons o rest ih =>
    intro gs r
    rw [List.foldl_cons]
    cases hko : removeParentKey o with
    | none =>
      have hg : groupOf r (o :: rest) = groupOf r rest := by
        simp [groupOf, List.filter_cons, hko]
      rw [hg]
      exact ih gs r
    | some p =>
      by_cases hrp : r = p
      · subst hrp
        have hg : groupOf r (o :: rest) = o :: groupOf r rest := by
          simp [groupOf, List.filter_cons, hko]
        rw [hg, ih (addToGroup gs r o) r, findGroup_addToGroup_same]
        cases findGroup gs r <;> simp
      · have hg : groupOf r (o :: rest) = groupOf r rest := by
          simp only [groupOf, List.filter_cons, hko]
          have hne : (some p == some r) = false := by
            simp only [beq_eq_false_iff_ne, ne_eq, Option.some.injEq]
            exact fun hh => hrp hh.symm
          simp [hne]
        rw [hg, ih (addToGroup gs p o) r, findGroup_addToGroup_other gs o hrp]

/-- The grouping fold keeps keys distinct. -/
theorem buildGroups_foldl_nodup (ops : List RuleOperationDiagnostic) :
    ∀ (gs : List (String × List RuleOperationDiagnostic)),
      (keysOf gs).Nodup →
      (keysOf
          (ops.foldl
            (fun gs o =>
              match removeParentKey o with
              | none => gs
              | some p => addToGroup gs p o)
            gs)).Nodup := by
  induction ops with
  | nil => intro gs h; simpa using h
  | cons o rest ih =>
    intro gs h
    rw [List.foldl_cons]
    cases hko : removeParentKey o with
    | none => exact ih gs h
    | some p => exact ih (addToGroup gs p o) (nodup_keysOf_addToGroup h)

/-- Keys of `buildGroups` are distinct. -/
theorem buildGroups_nodup (ops : List RuleOperationDiagnostic) :
    (keysOf (buildGroups ops)).Nodup := by
  have := buildGroups_foldl_nodup ops []
  exact this (by simp [keysOf])

/-- Every entry of `buildGroups` is exactly its key's group, and groups
are never empty. -/
theorem buildGroups_mem (ops : List RuleOperationDiagnostic)
    {pg : String × List RuleOperationDiagnostic}
    (hmem : pg ∈ buildGroups ops) :
    pg.2 = groupOf pg.1 ops ∧ groupOf pg.1 ops ≠ [] := by
  have hfind := findGroup_of_mem hmem (buildGroups_nodup ops)
  have hchar := buildGroups_foldl_findGroup ops [] pg.1
  rw [show buildGroups ops =
      List.foldl
        (fun gs o =>
          match removeParentKey o with
          | none => gs
          | some p => addToGroup gs p o)
        [] ops from rfl] at hfind
  rw [hfind] at hchar
  simp only [findGroup] at hchar
  cases hie : (groupOf pg.1 ops).isEmpty with
  | true => rw [hie, if_pos rfl] at hchar; cases hchar
  | false =>
    rw [hie] at hchar
    simp only [Bool.false_eq_true, if_false] at hchar
    injection hchar with hchar
    refine ⟨hchar, ?_⟩
    intro hempty
    rw [hempty] at hie
    simp at hie

/-- Every remove operation's parent appears among the group keys. -/
theorem buildGroups_covers (ops : List RuleOperationDiagnostic)
    {o : RuleOperationDiagnostic} {p : String} (hmem : o ∈ ops)
    (hko : removeParentKey o = some p) : p ∈ keysOf (buildGroups ops) := by
  have hg : (groupOf p ops).isEmpty = false := by
    have hmemg : o ∈ groupOf p ops := by
      simp only [groupOf, List.mem_filter]
      exact ⟨hmem, by simp [hko]⟩
    cases hgo : groupOf p ops with
    | nil => rw [hgo] at hmemg; cases hmemg
    | cons a l => simp
  have hchar := buildGroups_foldl_findGroup ops [] p
  simp only [findGroup, hg, Bool.false_eq_true, if_false] at hchar
  rw [show List.foldl
        (fun gs o =>
          match removeParentKey o with
          | none => gs
          | some p => addToGroup gs p o)
        [] ops = buildGroups ops from rfl] at hchar
  by_contra hnot
  rw [← findGroup_eq_none_iff] at hnot
  rw [hnot] at hchar
  cases hchar

/-- The group with positions projects to the group. -/
theorem groupIdx_map_snd (p : String) (l : List RuleOperationDiagnostic) :
    ∀ i, (groupIdx p l i).map (·.2) = groupOf p l := by
  induction l with
  | nil => intro i; simp [groupIdx, groupOf]
  | cons o rest ih =>
    intro i
    unfold groupIdx
    cases hko : (removeParentKey o == some p) with
    | true =>
      simp [List.map_cons, ih (i + 1), groupOf, List.filter_cons, hko]
    | false =>
      simp [ih (i + 1), groupOf, List.filter_cons, hko]

/-- Each indexed group entry is the list element at its position, with the
right parent. -/
theorem groupIdx_mem_get (p : String) (l : List RuleOperationDiagnostic) :
    ∀ i jo, jo ∈ groupIdx p l i →
      i ≤ jo.1 ∧ l.get? (jo.1 - i) = some jo.2 ∧
        removeParentKey jo.2 = some p := by
  induction l with
  | nil => intro i jo h; simp [groupIdx] at h
  | cons o rest ih =>
    intro i jo h
    unfold groupIdx at h
    by_cases hko : (removeParentKey o == some p) = true
    · rw [if_pos hko] at h
      cases h with
      | head =>
        refine ⟨Nat.le_refl i, ?_, by simpa using hko⟩
        simp
      | tail _ h' =>
        obtain ⟨hle, hget, hpar⟩ := ih (i + 1) jo h'
        refine ⟨Nat.le_of_succ_le hle, ?_, hpar⟩
        have : jo.1 - i = (jo.1 - (i + 1)) + 1 := by omega
        rw [this]
        simpa using hget
    · rw [if_neg hko] at h
      obtain ⟨hle, hget, hpar⟩ := ih (i + 1) jo h
      refine ⟨Nat.le_of_succ_le hle, ?_, hpar⟩
      have : jo.1 - i = (jo.1 - (i + 1)) + 1 := by omega
      rw [this]
      simpa using hget

/-- Positions in the indexed group are strictly increasing. -/
theorem groupIdx_pairwise (p : String) (l : List RuleOperationDiagnostic) :
    ∀ i, List.Pairwise (fun a b => a.1 < b.1) (groupIdx p l i) := by
  induction l with
  | nil => intro i; simp [groupIdx]
  | cons o rest ih =>
    intro i
    unfold groupIdx
    by_cases hko : (removeParentKey o == some p) = true
    · rw [if_pos hko]
      rw [List.pairwise_cons]
      refine ⟨?_, ih (i + 1)⟩
      intro jo hjo
      have := (groupIdx_mem_get p rest (i + 1) jo hjo).1
      omega
    · rw [if_neg hko]
      exact ih (i + 1)

/-- An element with the right parent appears in the indexed group at its
own position. -/
theorem groupIdx_of_get (p : String) (l : List RuleOperationDiagnostic) :
    ∀ i m o, l.get? m = some o → removeParentKey o = some p →
      (i + m, o) ∈ groupIdx p l i := by
  induction l with
  | nil => intro i m o h; simp at h
  | cons a rest ih =>
    intro i m o h hpar
    cases m with
    | zero =>
      simp only [List.get?_cons_zero] at h
      injection h with h
      subst h
      unfold groupIdx
      rw [if_pos (by simp [hpar])]
      simpa using List.mem_cons_self _ _
    | succ m' =>
      simp only [List.get?_cons_succ] at h
      have := ih (i + 1) m' o h hpar
      have harith : i + 1 + m' = i + (m' + 1) := by omega
      rw [harith] at this
      unfold groupIdx
      by_cases hko : (removeParentKey a == some p) = true
      · rw [if_pos hko]
        exact List.mem_cons_of_mem _ this
      · rw [if_neg hko]
        exact this

/-- The position of an entry inside the indexed group is the number of
same-parent slots before it. -/
theorem groupIdx_rank (p : String) (l : List RuleOperationDiagnostic) :
    ∀ i k jo, (groupIdx p l i).get? k = some jo →
      (groupOf p (l.take (jo.1 - i))).length = k := by
  induction l with
  | nil => intro i k jo h; simp [groupIdx] at h
  | cons o rest ih =>
    intro i k jo h
    unfold groupIdx at h
    by_cases hko : (removeParentKey o == some p) = true
    · rw [if_pos hko] at h
      cases k with
      | zero =>
        simp only [List.get?_cons_zero] at h
        injection h with h
        subst h
        simp [groupOf]
      | succ k' =>
        simp only [List.get?_cons_succ] at h
        have hrank := ih (i + 1) k' jo h
        have hle := (groupIdx_mem_get p rest (i + 1) jo (List.get?_mem h)).1
        have harith : jo.1 - i = (jo.1 - (i + 1)) + 1 := by omega
        rw [harith, List.take_succ_cons]
        simp only [groupOf] at hrank
        simp [groupOf, List.filter_cons, hko]
        omega
    · rw [if_neg hko] at h
      have hrank := ih (i + 1) k jo h
      have hle := (groupIdx_mem_get p rest (i + 1) jo (List.get?_mem h)).1
      have harith : jo.1 - i = (jo.1 - (i + 1)) + 1 := by omega
      rw [harith, List.take_succ_cons]
      simp only [groupOf, List.filter_cons, hko, Bool.false_eq_true, if_false]
      simp only [groupOf] at hrank
      exact hrank

/-- `writeSlots` preserves the length. -/
theorem writeSlots_length (res : List RuleOperationDiagnostic) :
    ∀ l, (writeSlots res l).length = res.length := by
  intro l
  induction l generalizing res with
  | nil => rfl
  | cons ix rest ih =>
    obtain ⟨i, x⟩ := ix
    unfold writeSlots
    rw [ih (res.set i x), List.length_set]

/-- `writeSlots` does not touch positions outside the written slots. -/
theorem writeSlots_get_not_mem (res : List RuleOperationDiagnostic)
    {j : Nat} :
    ∀ l, (∀ ix ∈ l, ix.1 ≠ j) →
      (writeSlots res l).get? j = res.get? j := by
  intro l
  induction l generalizing res with
  | nil => intro _; rfl
  | cons ix rest ih =>
    obtain ⟨i, x⟩ := ix
    intro hne
    unfold writeSlots
    rw [ih (res.set i x) (fun p hp => hne p (List.mem_cons_of_mem _ hp)),
      List.get?_set_ne x res (hne (i, x) (List.mem_cons_self _ _))]

/-- `writeSlots` writes each pair of the zipped slot/content lists. -/
theorem writeSlots_get_mem (res : List RuleOperationDiagnostic) :
    ∀ (ps : List Nat) (xs : List RuleOperationDiagnostic) (k j : Nat)
      (x : RuleOperationDiagnostic),
      List.Pairwise (· < ·) ps →
      ps.get? k = some j → xs.get? k = some x → j < res.length →
      (writeSlots res (ps.zip xs)).get? j = some x := by
  intro ps
  induction ps generalizing res with
  | nil => intro xs k j x _ hp; simp at hp
  | cons p0 prest ih =>
    intro xs k j x hpw hp hx hj
    cases xs with
    | nil => simp at hx
    | cons x0 xrest =>
      rw [List.pairwise_cons] at hpw
      cases k with
      | zero =>
        simp only [List.get?_cons_zero] at hp hx
        injection hp with hp
        injection hx with hx
        subst hp
        subst hx
        simp only [List.zip_cons_cons]
        unfold writeSlots
        rw [writeSlots_get_not_mem]
        · exact List.get?_set_eq_of_lt x0 hj
        · intro ix hix
          have hmem := List.mem_zip hix
          have := hpw.1 ix.1 hmem.1
          omega
      | succ k' =>
        simp only [List.get?_cons_succ] at hp hx
        simp only [List.zip_cons_cons]
        unfold writeSlots
        apply ih (res.set p0 x0) xrest k' j x hpw.2 hp hx
        rw [List.length_set]
        exact hj

/-- Group membership unpacked. -/
theorem mem_groupOf {p : String} {x : RuleOperationDiagnostic}
    {ops : List RuleOperationDiagnostic} (h : x ∈ groupOf p ops) :
    x ∈ ops ∧ removeParentKey x = some p := by
  simp only [groupOf, List.mem_filter] at h
  exact ⟨h.1, by simpa using h.2⟩

/-- Successful per-element searches turn the group back into its slots. -/
theorem filterMap_indexed {l : List (Nat × RuleOperationDiagnostic)}
    {find : RuleOperationDiagnostic → Option Nat}
    (h : ∀ jo ∈ l, find jo.2 = some jo.1) :
    (l.map (·.2)).filterMap find = l.map (·.1) := by
  induction l with
  | nil => rfl
  | cons jo rest ih =>
    simp only [List.map_cons, List.filterMap_cons, h jo (List.mem_cons_self _ _)]
    rw [ih (fun x hx => h x (List.mem_cons_of_mem _ hx))]

/-- The invariant of the reordering fold: every slot keeps its original
operation until the slot's parent group is processed, after which it holds
the element of the sorted group whose rank matches the slot's rank. -/
def ReorderInv (ops : List RuleOperationDiagnostic)
    (processed : String → Prop) (res : List RuleOperationDiagnostic) : Prop :=
  res.length = ops.length ∧
  ∀ i oo, ops.get? i = some oo →
    ((removeParentKey oo = none → res.get? i = some oo) ∧
     (∀ p, removeParentKey oo = some p → ¬processed p →
       res.get? i = some oo) ∧
     (∀ p, removeParentKey oo = some p → processed p →
       res.get? i =
         (sortByCmp cmpOps (groupOf p ops)).get? (rankBefore p ops i)))

/-- The invariant holds initially: nothing processed, slots untouched. -/
theorem reorderInv_init (ops : List RuleOperationDiagnostic) :
    ReorderInv ops (fun _ => False) ops := by
  refine ⟨rfl, ?_⟩
  intro i oo hget
  exact ⟨fun _ => hget, fun _ _ _ => hget, fun _ _ hfalse => absurd hfalse id⟩

/-- The invariant respects pointwise equivalent processed-sets. -/
theorem reorderInv_congr {ops : List RuleOperationDiagnostic}
    {P Q : String → Prop} (hPQ : ∀ r, P r ↔ Q r)
    {res : List RuleOperationDiagnostic} (h : ReorderInv ops P res) :
    ReorderInv ops Q res := by
  refine ⟨h.1, ?_⟩
  intro i oo hget
  obtain ⟨h1, h2, h3⟩ := h.2 i oo hget
  exact ⟨h1, fun p hp hnq => h2 p hp (fun hq => hnq ((hPQ p).mp hq)),
    fun p hp hq => h3 p hp ((hPQ p).mpr hq)⟩

/-- Under the invariant, searching the working array for an unprocessed
group member finds exactly its original slot. -/
theorem reorder_findIdx {ops : List RuleOperationDiagnostic}
    (hdist : pairwiseDistinctOps ops = true)
    {processed : String → Prop} {res : List RuleOperationDiagnostic}
    (hinv : ReorderInv ops processed res)
    {p : String} (hp : ¬processed p) {j : Nat}
    {o : RuleOperationDiagnostic} (hj : ops.get? j = some o)
    (hpar : removeParentKey o = some p) :
    res.findIdx? (fun x => x.beq o) = some j := by
  obtain ⟨path, hpath, _⟩ := removeParentKey_some_summary hpar
  have hresj : res.get? j = some o := (hinv.2 j o hj).2.1 p hpar hp
  apply findIdx?_eq_some_of (fun x => x.beq o) hresj (opBeq_refl_remove hpath)
  intro j' x' hlt hgj'
  -- the original operation at slot j'
  have hj'lt : j' < ops.length := by
    have hjlen : j < res.length := (List.get?_eq_some.mp hresj).1
    rw [hinv.1] at hjlen
    omega
  obtain ⟨oo', hoo'⟩ : ∃ oo', ops.get? j' = some oo' := by
    cases hg : ops.get? j' with
    | none =>
      rw [List.get?_eq_none] at hg
      omega
    | some v => exact ⟨v, rfl⟩
  have hne : j' ≠ j := Nat.ne_of_lt hlt
  obtain ⟨c1, c2, c3⟩ := hinv.2 j' oo' hoo'
  cases hko : removeParentKey oo' with
  | none =>
    have hx' : x' = oo' := by
      have := c1 hko
      rw [this] at hgj'
      injection hgj' with hgj'
      exact hgj'.symm
    rw [hx']
    exact pairwiseDistinctOps_get hdist j' j oo' o hne hoo' hj
  | some q =>
    by_cases hq : processed q
    · have hqp : q ≠ p := fun he => hp (he ▸ hq)
      have := c3 q hko hq
      rw [this] at hgj'
      have hxmem : x' ∈ sortByCmp cmpOps (groupOf q ops) := List.get?_mem hgj'
      have hxg := (mem_groupOf (mem_sortByCmp.mp hxmem)).2
      cases hbeq : RuleOperationDiagnostic.beq x' o with
      | false => rfl
      | true =>
        exfalso
        have hxo : x' = o := opBeq_eq_of_beq_remove hpath hbeq
        rw [hxo, hpar] at hxg
        injection hxg with hxg
        exact hqp hxg.symm
    · have hx' : x' = oo' := by
        have := c2 q hko hq
        rw [this] at hgj'
        injection hgj' with hgj'
        exact hgj'.symm
      rw [hx']
      exact pairwiseDistinctOps_get hdist j' j oo' o hne hoo' hj

/-- Processing one unprocessed group preserves the invariant and marks the
group processed. -/
theorem processGroup_inv {ops : List RuleOperationDiagnostic}
    (hdist : pairwiseDistinctOps ops = true)
    {processed : String → Prop} {res : List RuleOperationDiagnostic}
    (hinv : ReorderInv ops processed res)
    {p : String} (hp : ¬processed p) :
    ReorderInv ops (fun r => processed r ∨ r = p)
      (processGroup res (groupOf p ops)) := by
  have hmapsnd := groupIdx_map_snd p ops 0
  have hgfind : ∀ jo ∈ groupIdx p ops 0,
      res.findIdx? (fun x => x.beq jo.2) = some jo.1 := by
    intro jo hjo
    obtain ⟨_, hget, hpar⟩ := groupIdx_mem_get p ops 0 jo hjo
    simp only [Nat.sub_zero] at hget
    exact reorder_findIdx hdist hinv hp hget hpar
  have hfirsts : List.Pairwise (· < ·) ((groupIdx p ops 0).map (·.1)) := by
    exact List.Pairwise.map _ (fun a b h => h) (groupIdx_pairwise p ops 0)
  have hpg : processGroup res (groupOf p ops) =
      writeSlots res
        (((groupIdx p ops 0).map (·.1)).zip
          (sortByCmp cmpOps (groupOf p ops))) := by
    unfold processGroup
    rw [← hmapsnd, filterMap_indexed hgfind, sortByCmp_natAsc_sorted hfirsts,
      hmapsnd]
    rfl
  have hnotmem : ∀ {i : Nat},
      (¬∃ oo, ops.get? i = some oo ∧ removeParentKey oo = some p) →
      (processGroup res (groupOf p ops)).get? i = res.get? i := by
    intro i hno
    rw [hpg]
    apply writeSlots_get_not_mem
    intro ix hix
    intro hixi
    have hmem := (List.of_mem_zip hix).1
    rw [List.mem_map] at hmem
    obtain ⟨jo, hjo, hjo1⟩ := hmem
    obtain ⟨_, hget, hpar⟩ := groupIdx_mem_get p ops 0 jo hjo
    simp only [Nat.sub_zero] at hget
    exact hno ⟨jo.2, by rw [← hixi, ← hjo1]; exact hget, hpar⟩
  refine ⟨?_, ?_⟩
  · rw [hpg, writeSlots_length]
    exact hinv.1
  · intro i oo hget
    obtain ⟨c1, c2, c3⟩ := hinv.2 i oo hget
    refine ⟨?_, ?_, ?_⟩
    · intro hnone
      rw [hnotmem, c1 hnone]
      intro ⟨oo', hoo', hpar'⟩
      rw [hget] at hoo'
      injection hoo' with hoo'
      rw [← hoo'] at hpar'
      rw [hnone] at hpar'
      cases hpar'
    · intro q hq hnq
      have hqp : q ≠ p := fun he => hnq (Or.inr he)
      rw [hnotmem, c2 q hq (fun hpr => hnq (Or.inl hpr))]
      intro ⟨oo', hoo', hpar'⟩
      rw [hget] at hoo'
      injection hoo' with hoo'
      rw [← hoo'] at hpar'
      rw [hq] at hpar'
      injection hpar' with hpar'
      exact hqp hpar'
    · intro q hq hproc
      cases hproc with
      | inl hold =>
        have hqp : q ≠ p := fun he => hp (he ▸ hold)
        rw [hnotmem, c3 q hq hold]
        intro ⟨oo', hoo', hpar'⟩
        rw [hget] at hoo'
        injection hoo' with hoo'
        rw [← hoo'] at hpar'
        rw [hq] at hpar'
        injection hpar' with hpar'
        exact hqp hpar'
      | inr hqp =>
        subst hqp
        have hmem : (0 + i, oo) ∈ groupIdx q ops 0 :=
          groupIdx_of_get q ops 0 i oo hget hq
        simp only [Nat.zero_add] at hmem
        obtain ⟨k, hk⟩ := List.get?_of_mem hmem
        have hrank : rankBefore q ops i = k := by
          have := groupIdx_rank q ops 0 k (i, oo) hk
          simp only [Nat.sub_zero] at this
          exact this
        have hfk : ((groupIdx q ops 0).map (·.1)).get? k = some i := by
          rw [List.get?_map, hk]
          rfl
        have hklt : k < (sortByCmp cmpOps (groupOf q ops)).length := by
          rw [length_sortByCmp, ← hmapsnd, List.length_map]
          exact (List.get?_eq_some.mp hk).1
        obtain ⟨x, hx⟩ : ∃ x,
            (sortByCmp cmpOps (groupOf q ops)).get? k = some x := by
          cases hc : (sortByCmp cmpOps (groupOf q ops)).get? k with
          | none =>
            rw [List.get?_eq_none] at hc
            omega
          | some v => exact ⟨v, rfl⟩
        have hilt : i < res.length := by
          rw [hinv.1]
          exact (List.get?_eq_some.mp hget).1
        rw [hpg, writeSlots_get_mem res _ _ k i x hfirsts hfk hx hilt,
          hrank, hx]

/-- Folding over a list of pristine groups with distinct keys processes
them all. -/
theorem foldGroups_inv {ops : List RuleOperationDiagnostic}
    (hdist : pairwiseDistinctOps ops = true) :
    ∀ (gs : List (String × List RuleOperationDiagnostic))
      (processed : String → Prop) (res : List RuleOperationDiagnostic),
      ReorderInv ops processed res →
      (∀ pg ∈ gs, pg.2 = groupOf pg.1 ops ∧ ¬processed pg.1) →
      (keysOf gs).Nodup →
      ReorderInv ops (fun r => processed r ∨ r ∈ keysOf gs)
        (gs.foldl (fun res pg => processGroup res pg.2) res) := by
  intro gs
  induction gs with
  | nil =>
    intro processed res hinv _ _
    simp only [List.foldl_nil]
    exact reorderInv_congr (fun r => by simp [keysOf]) hinv
  | cons pg rest ih =>
    intro processed res hinv hgs hnd
    obtain ⟨p, g⟩ := pg
    obtain ⟨hg, hnp⟩ := hgs (p, g) (List.mem_cons_self _ _)
    simp only at hg
    rw [List.foldl_cons]
    simp only
    rw [hg]
    have hstep := processGroup_inv hdist hinv hnp
    simp only [keysOf, List.map_cons, List.nodup_cons] at hnd
    have hrest := ih (fun r => processed r ∨ r = p)
      (processGroup res (groupOf p ops)) hstep
      (fun qg hqg => by
        obtain ⟨hq1, hq2⟩ := hgs qg (List.mem_cons_of_mem _ hqg)
        refine ⟨hq1, ?_⟩
        intro hor
        cases hor with
        | inl hpr => exact hq2 hpr
        | inr heq =>
          apply hnd.1
          rw [← heq]
          exact List.mem_map_of_mem (·.1) hqg)
      hnd.2
    refine reorderInv_congr (fun r => ?_) hrest
    simp only [keysOf, List.map_cons, List.mem_cons]
    constructor
    · intro hor
      cases hor with
      | inl hor' =>
        cases hor' with
        | inl hpr => exact Or.inl hpr
        | inr heq => exact Or.inr (Or.inl heq)
      | inr hmem => exact Or.inr (Or.inr hmem)
    · intro hor
      cases hor with
      | inl hpr => exact Or.inl (Or.inl hpr)
      | inr hor' =>
        cases hor' with
        | inl heq => exact Or.inl (Or.inr heq)
        | inr hmem => exact Or.inr hmem

/-- Oracle for the C1 example: the matcher selects array indices 1 and 3
of `arr`. -/
def c1Oracle : QueryOracle :=
  { pointers := fun _ _ => .ok ["/arr/1", "/arr/3"],
    values := fun _ _ => .ok [] }

/-- The C1 example document `{arr: ["a", "b", "c", "d"]}`. -/
def c1Doc : Json :=
  .obj [("arr", .arr [.str "a", .str "b", .str "c", .str "d"])]

/-- The C1 example remove rule. -/
def c1Rule : Rule :=
  .remove { id := "r1", matcher := "$.arr[1,3]", allowEmptyMatcher := false,
            allowEmptyValue := false, disabled := false }

/-- C1: under pairwise-distinct staged diagnostics (the source compares by
object identity; staged lists are distinct), `reorderRemoveOperations`
(1) preserves the sequence length, (2) leaves every non-remove slot
untouched, (3) fills each remove slot of parent `p` with the element of
the comparator-sorted group of `p` at that slot's rank — so each group
occupies exactly its original position slots, removals of different
parents and non-remove operations are never moved across each other's
slots — (4) preserves each slot's remove-parent, (5) orders every group of
numeric array-index siblings by non-increasing index, and (6) concretely:
on `{arr:[a,b,c,d]}` with one rule matching indices 1 and 3 the applied
order is `[remove /arr/3, remove /arr/1]` and the final document is
`{arr:[a,c]}`. -/
theorem C1_remove_reordering (ops : List RuleOperationDiagnostic)
    (hdist : pairwiseDistinctOps ops = true) :
    ((reorderRemoveOperations ops).length = ops.length) ∧
    (∀ i oo, ops.get? i = some oo → removeParentKey oo = none →
        (reorderRemoveOperations ops).get? i = some oo) ∧
    (∀ i oo p, ops.get? i = some oo → removeParentKey oo = some p →
        (reorderRemoveOperations ops).get? i =
          (sortByCmp cmpOps (groupOf p ops)).get? (rankBefore p ops i)) ∧
    (∀ i oo ro, ops.get? i = some oo →
        (reorderRemoveOperations ops).get? i = some ro →
        removeParentKey ro = removeParentKey oo) ∧
    (∀ p, (∀ x ∈ groupOf p ops, (removeIdxKey x).isSome = true) →
        List.Pairwise
          (fun a b => (removeIdxKey b).getD 0 ≤ (removeIdxKey a).getD 0)
          (sortByCmp cmpOps (groupOf p ops))) ∧
    ((runTransformer c1Oracle c1Doc [c1Rule]).operations =
        [.remove "/arr/3", .remove "/arr/1"] ∧
      (runTransformer c1Oracle c1Doc [c1Rule]).document =
        .obj [("arr", .arr [.str "a", .str "c"])] ∧
      (runTransformer c1Oracle c1Doc [c1Rule]).ok = true) := by
  have hfinal : ReorderInv ops
      (fun r => False ∨ r ∈ keysOf (buildGroups ops))
      (reorderRemoveOperations ops) := by
    have := foldGroups_inv hdist (buildGroups ops) (fun _ => False) ops
      (reorderInv_init ops)
      (fun pg hmem => ⟨(buildGroups_mem ops hmem).1, fun hfalse => hfalse⟩)
      (buildGroups_nodup ops)
    exact this
  obtain ⟨hlen, hslots⟩ := hfinal
  refine ⟨hlen, ?_, ?_, ?_, ?_, rfl, rfl, rfl⟩
  · intro i oo hget hnone
    exact (hslots i oo hget).1 hnone
  · intro i oo p hget hpar
    refine (hslots i oo hget).2.2 p hpar ?_
    exact Or.inr (buildGroups_covers ops (List.get?_mem hget) hpar)
  · intro i oo ro hget hro
    cases hko : removeParentKey oo with
    | none =>
      have := (hslots i oo hget).1 hko
      rw [this] at hro
      injection hro with hro
      rw [← hro, hko]
    | some p =>
      have hproc : False ∨ p ∈ keysOf (buildGroups ops) :=
        Or.inr (buildGroups_covers ops (List.get?_mem hget) hko)
      have := (hslots i oo hget).2.2 p hko hproc
      rw [this] at hro
      have hmem : ro ∈ sortByCmp cmpOps (groupOf p ops) := List.get?_mem hro
      rw [(mem_groupOf (mem_sortByCmp.mp hmem)).2]
  · intro p hnum
    refine sortByCmp_pairwise_key ?_
    intro x hx y hy
    obtain ⟨_, hpx⟩ := mem_groupOf hx
    obtain ⟨_, hpy⟩ := mem_groupOf hy
    obtain ⟨kx, hkx⟩ := Option.isSome_iff_exists.mp (hnum x hx)
    obtain ⟨ky, hky⟩ := Option.isSome_iff_exists.mp (hnum y hy)
    rw [cmpOps_numeric hpx hpy hkx hky, hkx, hky]
    rfl

/-- Witness for C1: the two staged removals of the example are pairwise
distinct, and the reordering facts apply to them. -/
theorem C1_remove_reordering_witness :
    pairwiseDistinctOps
        [{ matchIndex := 0, pointer := "/arr/1", op := .remove,
           summary := .remove "/arr/1", status := .skipped, message := none },
         { matchIndex := 1, pointer := "/arr/3", op := .remove,
           summary := .remove "/arr/3", status := .skipped, message := none }] =
        true ∧
      (reorderRemoveOperations
          [{ matchIndex := 0, pointer := "/arr/1", op := .remove,
             summary := .remove "/arr/1", status := .skipped, message := none },
           { matchIndex := 1, pointer := "/arr/3", op := .remove,
             summary := .remove "/arr/3", status := .skipped,
             message := none }]).length = 2 := by
  constructor
  · rfl
  · exact (C1_remove_reordering
      [{ matchIndex := 0, pointer := "/arr/1", op := .remove,
         summary := .remove "/arr/1", status := .skipped, message := none },
       { matchIndex := 1, pointer := "/arr/3", op := .remove,
         summary := .remove "/arr/3", status := .skipped, message := none }]
      rfl).1

end JsonRemap
